import Mathlib

set_option maxHeartbeats 1000000

/-!
Verification of the clinical research pipeline's core:
the rank-fusion algorithm (`RetrieverSummarizerAgent.hybrid_fusion`),
the Temporal workflow orchestration (`ResearchWorkflow.run`),
the agents' error-capturing `run` methods, and the persistence
activity (`save_research_result_activity`).

Machine floats in the source are modelled as exact rationals (`ℚ`);
opaque JSON payloads that the verified code never inspects are modelled
as `String` values supplied by environment parameters.
-/

namespace ClinicalResearch

/-! ## Rank fusion (src/agents/retriever_summarizer_agent.py, `hybrid_fusion`) -/

/-- One entry of a single-source ranked result list: `doc_id` plus the
opaque `source` payload (`hit['_source']` / Milvus entity fields). -/
structure SearchResult where
  doc_id : String
  source : String
deriving DecidableEq

/-- One value of the Python `doc_scores` dict: the first-creating
occurrence's `source` payload plus the optional per-source scores
(`bm25_score` / `vector_score` dict keys, absent until set). -/
structure DocEntry where
  source : String
  bm25_score : Option ℚ
  vector_score : Option ℚ
deriving DecidableEq

/-- One fused output entry (the dicts appended to `fused`). -/
structure FusedResult where
  doc_id : String
  source : String
  hybrid_score : ℚ
  bm25_score : ℚ
  vector_score : ℚ
deriving DecidableEq

/-- The reciprocal-rank-fusion score `1.0 / (60 + rank)` for a 1-based rank. -/
def rrfScore (rank : ℕ) : ℚ := 1 / (60 + (rank : ℚ))

/-- `doc_scores[doc_id] = doc_scores.get(doc_id, {"source": ...})` followed by
`doc_scores[doc_id]["bm25_score"] = 1.0 / (60 + rank)`: update the entry in
place if the key exists (preserving dict insertion order), else append a new
entry at the end. -/
def updateBm25 (scores : List (String × DocEntry)) (id src : String) (rank : ℕ) :
    List (String × DocEntry) :=
  match scores with
  | [] => [(id, ⟨src, some (rrfScore rank), none⟩)]
  | (k, e) :: rest =>
    if k = id then (k, { e with bm25_score := some (rrfScore rank) }) :: rest
    else (k, e) :: updateBm25 rest id src rank

/-- `if doc_id not in doc_scores: doc_scores[doc_id] = {"source": ...}` followed
by `doc_scores[doc_id]["vector_score"] = 1.0 / (60 + rank)`. -/
def updateVector (scores : List (String × DocEntry)) (id src : String) (rank : ℕ) :
    List (String × DocEntry) :=
  match scores with
  | [] => [(id, ⟨src, none, some (rrfScore rank)⟩)]
  | (k, e) :: rest =>
    if k = id then (k, { e with vector_score := some (rrfScore rank) }) :: rest
    else (k, e) :: updateVector rest id src rank

/-- `for rank, result in enumerate(bm25_results, start=1): ...` -/
def bm25Phase : List SearchResult → List (String × DocEntry) → ℕ →
    List (String × DocEntry)
  | [], scores, _ => scores
  | r :: rs, scores, rank => bm25Phase rs (updateBm25 scores r.doc_id r.source rank) (rank + 1)

/-- `for rank, result in enumerate(vector_results, start=1): ...` -/
def vectorPhase : List SearchResult → List (String × DocEntry) → ℕ →
    List (String × DocEntry)
  | [], scores, _ => scores
  | r :: rs, scores, rank => vectorPhase rs (updateVector scores r.doc_id r.source rank) (rank + 1)

/-- Build one fused dict from a `doc_scores` item:
`bm25 = data.get("bm25_score", 0)`, `vector = data.get("vector_score", 0)`,
`hybrid_score = alpha * bm25 + (1 - alpha) * vector`. -/
def fuseEntry (alpha : ℚ) (p : String × DocEntry) : FusedResult :=
  let bm25 := p.2.bm25_score.getD 0
  let vector := p.2.vector_score.getD 0
  { doc_id := p.1
    source := p.2.source
    hybrid_score := alpha * bm25 + (1 - alpha) * vector
    bm25_score := bm25
    vector_score := vector }

/-- The `fused` list before sorting, in `doc_scores` dict insertion order. -/
def fusedUnsorted (bm25_results vector_results : List SearchResult) (alpha : ℚ) :
    List FusedResult :=
  (vectorPhase vector_results (bm25Phase bm25_results [] 1) 1).map (fuseEntry alpha)

/-- Stable descending insertion (the behaviour of Python's stable
`list.sort(key=..., reverse=True)` on the fused list): a new element goes
after all strictly greater scores and before the first score `≤` its own. -/
def insertDesc (x : FusedResult) : List FusedResult → List FusedResult
  | [] => [x]
  | y :: ys =>
    if y.hybrid_score ≤ x.hybrid_score then x :: y :: ys
    else y :: insertDesc x ys

/-- Stable sort by `hybrid_score` descending
(`fused.sort(key=lambda x: x["hybrid_score"], reverse=True)`). -/
def sortDesc : List FusedResult → List FusedResult
  | [] => []
  | x :: xs => insertDesc x (sortDesc xs)

/-- `RetrieverSummarizerAgent.hybrid_fusion` (the `alpha` default in the
source is `0.5`). -/
def hybrid_fusion (bm25_results vector_results : List SearchResult)
    (alpha : ℚ) : List FusedResult :=
  sortDesc (fusedUnsorted bm25_results vector_results alpha)

/-- The identifiers of a ranked list, in list order. -/
def docIds (l : List SearchResult) : List String := l.map SearchResult.doc_id

/-- The keys of a `doc_scores` association list, in insertion order. -/
def keysOf (s : List (String × DocEntry)) : List String := s.map Prod.fst

/-- Dict lookup on the `doc_scores` association list. -/
def lookupEntry : List (String × DocEntry) → String → Option DocEntry
  | [], _ => none
  | (k, e) :: rest, id => if k = id then some e else lookupEntry rest id

/-- The bm25 score a key would contribute to its fused entry
(`data.get("bm25_score", 0)`, and `0` for an absent key). -/
def bm25At (s : List (String × DocEntry)) (id : String) : ℚ :=
  match lookupEntry s id with
  | some e => e.bm25_score.getD 0
  | none => 0

/-- The vector score a key would contribute to its fused entry. -/
def vecAt (s : List (String × DocEntry)) (id : String) : ℚ :=
  match lookupEntry s id with
  | some e => e.vector_score.getD 0
  | none => 0

/-- The reciprocal-rank score of the LAST occurrence of `id` in `l`, the
first element of `l` having rank `rank`; `none` if `id` does not occur.
(The source's per-phase loops overwrite a duplicate's score, so the last
occurrence wins.) -/
def lastOccScore : List SearchResult → String → ℕ → Option ℚ
  | [], _, _ => none
  | r :: rs, id, rank =>
    match lastOccScore rs id (rank + 1) with
    | some q => some q
    | none => if r.doc_id = id then some (rrfScore rank) else none

/-- The reciprocal-rank score of the FIRST occurrence of `id` in `l`.
For duplicate-free lists this agrees with `lastOccScore`. -/
def firstOccScore : List SearchResult → String → ℕ → Option ℚ
  | [], _, _ => none
  | r :: rs, id, rank =>
    if r.doc_id = id then some (rrfScore rank) else firstOccScore rs id (rank + 1)

/-- First-occurrence deduplication relative to an already-seen prefix. -/
def firstDedupAux (seen : List String) : List String → List String
  | [] => []
  | x :: xs =>
    if x ∈ seen then firstDedupAux seen xs
    else x :: firstDedupAux (seen ++ [x]) xs

/-- Deduplication keeping each identifier at its first appearance. -/
def firstDedup (l : List String) : List String := firstDedupAux [] l

/-- The `doc_scores` association list produced by the bm25 phase on a
duplicate-free list disjoint from the accumulator: one fresh entry per
element, in order, with ranks counting up from `rank`. -/
def enumRanks : List SearchResult → ℕ → List (String × DocEntry)
  | [], _ => []
  | r :: rs, rank => (r.doc_id, ⟨r.source, some (rrfScore rank), none⟩) :: enumRanks rs (rank + 1)

/-! ## Statuses and retry policy (src/data/models.py, src/orchestration/workflows.py) -/

/-- `ResearchStatus` string enum. -/
inductive ResearchStatus where
  | pending
  | processing
  | completed
  | failed
deriving DecidableEq

/-- The `.value` of each enum member. -/
def ResearchStatus.value : ResearchStatus → String
  | .pending => "pending"
  | .processing => "processing"
  | .completed => "completed"
  | .failed => "failed"

/-- The fields of `temporalio.common.RetryPolicy` the workflow sets
(time intervals in seconds). -/
structure RetryPolicy where
  initial_interval : ℕ
  maximum_interval : ℕ
  maximum_attempts : ℕ
deriving DecidableEq

/-- The one policy `ResearchWorkflow.run` builds and passes to every
`execute_activity` call: initial 1s, cap 10s, at most 3 attempts. -/
def workflowRetryPolicy : RetryPolicy := ⟨1, 10, 3⟩

/-- What one attempt of an activity can produce for the worker runtime:
an infrastructure-level (transient) error that the runtime may retry, or a
normal completion carrying the activity's return value. -/
inductive AttemptOutcome (α : Type) where
  | transient (detail : String)
  | completed (out : α)
deriving DecidableEq

/-- Whether an attempt completed normally. -/
def AttemptOutcome.isCompleted {α : Type} : AttemptOutcome α → Bool
  | .completed _ => true
  | .transient _ => false

/-- Result of executing one activity under the retry policy: the final
value (or the last transient failure's detail after retry exhaustion),
the number of attempts consumed, and the backoff delays slept between
attempts. -/
structure ExecOutcome (α : Type) where
  result : Except String α
  attemptsUsed : ℕ
  delays : List ℕ

/-- Modelled from the spec: the backoff delay before retry `k + 1`
(exponential from `initial_interval`, capped at `maximum_interval`);
the Temporal runtime that implements this is not part of src/. -/
def retryDelay (p : RetryPolicy) (k : ℕ) : ℕ :=
  min (p.initial_interval * 2 ^ k) p.maximum_interval

/-- Modelled from the spec: run attempt `k` with `remaining` attempts left;
a completed attempt is final immediately (even if its returned value carries
a non-empty errors list), a transient failure is retried after a backoff
delay until attempts are exhausted. -/
def execFrom {α : Type} (p : RetryPolicy) (attempts : ℕ → AttemptOutcome α) :
    ℕ → ℕ → ExecOutcome α
  | k, 0 => ⟨Except.error "no attempts permitted", k, []⟩
  | k, 1 =>
    match attempts k with
    | .completed out => ⟨Except.ok out, k + 1, []⟩
    | .transient d => ⟨Except.error d, k + 1, []⟩
  | k, n + 2 =>
    match attempts k with
    | .completed out => ⟨Except.ok out, k + 1, []⟩
    | .transient _ =>
      let rest := execFrom p attempts (k + 1) (n + 1)
      ⟨rest.result, rest.attemptsUsed, retryDelay p k :: rest.delays⟩

/-- Modelled from the spec: `execute_activity` under a retry policy —
Temporal's activity execution with retries is runtime behaviour, not code
under src/; only the policy's parameter values come from `workflows.py`. -/
def executeWithRetry {α : Type} (p : RetryPolicy) (attempts : ℕ → AttemptOutcome α) :
    ExecOutcome α :=
  execFrom p attempts 0 p.maximum_attempts

/-! ## Workflow data (src/orchestration/workflows.py) -/

/-- The keys of an agent activity's `output_data` dict that the workflow
reads; each is `none` when the key is absent, and the payloads themselves
are opaque to the workflow. -/
structure ActivityOutputData where
  expansion : Option String
  retrieved_documents : Option String
  summary : Option String
  research_brief : Option String
deriving DecidableEq

/-- The dict an agent activity returns to the workflow
(`AgentOutput.model_dump()`): the fields the workflow reads. -/
structure ActivityDict where
  output_data : ActivityOutputData
  errors : List String
  execution_time_ms : ℚ
deriving DecidableEq

/-- The request dict entering `ResearchWorkflow.run`; `request.get(...)`
keys the workflow reads, `none` when absent. -/
structure WorkflowRequest where
  topic : Option String
  max_sources : Option ℕ
  request_id : Option String
deriving DecidableEq

/-- `agent2_input` as built by the workflow. -/
structure Agent2Input where
  topic : Option String
  expansion : String
  top_k : ℕ
deriving DecidableEq

/-- `agent3_input` as built by the workflow. -/
structure Agent3Input where
  topic : Option String
  retrieved_docs : String
  summary_data : String
deriving DecidableEq

/-- The `metrics` sub-dict of the terminal result. -/
structure WorkflowMetrics where
  agent1_time_ms : ℚ
  agent2_time_ms : ℚ
  agent3_time_ms : ℚ
  total_time_ms : ℚ
deriving DecidableEq

/-- The terminal dict `ResearchWorkflow.run` returns: the failure dicts
carry only `status` and `error`; the completed dict carries `status`,
`brief` and `metrics`. -/
structure WorkflowResult where
  status : String
  error : Option String
  brief : Option String
  metrics : Option WorkflowMetrics
deriving DecidableEq

/-- The dict passed to `save_research_result_activity`. -/
structure SaveInput where
  request_id : Option String
  result : WorkflowResult
deriving DecidableEq

/-- The dict `save_research_result_activity` returns. -/
structure SaveAck where
  success : Bool
  error : Option String
deriving DecidableEq

/-- One `execute_activity` invocation, recording which activity was
invoked with which input. -/
inductive ActivityCall where
  | queryFilter (input : WorkflowRequest)
  | retrieverSummarizer (input : Agent2Input)
  | factCheckWriter (input : Agent3Input)
  | saveResult (input : SaveInput)
deriving DecidableEq

/-- Whether a call is the persistence (`save_research_result_activity`) call. -/
def ActivityCall.isSave : ActivityCall → Bool
  | .saveResult _ => true
  | _ => false

/-- Whether a call is the stage-3 (`run_fact_check_writer_activity`) call. -/
def ActivityCall.isFactCheck : ActivityCall → Bool
  | .factCheckWriter _ => true
  | _ => false

/-- The external activity behaviours the workflow calls into: for each
activity, the outcome of each numbered attempt at its given input. -/
structure WorkflowEnv where
  agent1 : WorkflowRequest → ℕ → AttemptOutcome ActivityDict
  agent2 : Agent2Input → ℕ → AttemptOutcome ActivityDict
  agent3 : Agent3Input → ℕ → AttemptOutcome ActivityDict
  save : SaveInput → ℕ → AttemptOutcome SaveAck

/-- `agent2_input = {"topic": ..., "expansion": a1["output_data"].get("expansion", {}),
"top_k": request.get("max_sources", 15)}`; the absent-key default `{}` is
modelled by the empty opaque payload. -/
def mkAgent2Input (request : WorkflowRequest) (a1 : ActivityDict) : Agent2Input :=
  { topic := request.topic
    expansion := a1.output_data.expansion.getD ""
    top_k := request.max_sources.getD 15 }

/-- `agent3_input` built from stage 2's output (defaults `[]` / `{}`
modelled by the empty opaque payload). -/
def mkAgent3Input (request : WorkflowRequest) (a2 : ActivityDict) : Agent3Input :=
  { topic := request.topic
    retrieved_docs := a2.output_data.retrieved_documents.getD ""
    summary_data := a2.output_data.summary.getD "" }

/-- Python's `str` rendering of a list of strings, as interpolated into the
failure message f-strings. -/
def pyListRepr (l : List String) : String :=
  "[" ++ String.intercalate ", " (l.map (fun s => "\x27" ++ s ++ "\x27")) ++ "]"

/-- The early-return failure dict
`{"status": FAILED.value, "error": f"<stage> failed: {errors}"}`. -/
def failResult (stage_label : String) (errs : List String) : WorkflowResult :=
  { status := ResearchStatus.failed.value
    error := some (stage_label ++ " failed: " ++ pyListRepr errs)
    brief := none
    metrics := none }

/-- The terminal completed dict, with the metrics sums from the three
agents' execution times. -/
def completedResult (a1 a2 a3 : ActivityDict) : WorkflowResult :=
  { status := ResearchStatus.completed.value
    error := none
    brief := a3.output_data.research_brief
    metrics := some
      { agent1_time_ms := a1.execution_time_ms
        agent2_time_ms := a2.execution_time_ms
        agent3_time_ms := a3.execution_time_ms
        total_time_ms := a1.execution_time_ms + a2.execution_time_ms + a3.execution_time_ms } }

/-- `ResearchWorkflow.run`, parameterised by the retry policy it passes to
every `execute_activity`: runs the three agent activities in sequence,
short-circuits with a failure dict when an agent output's `errors` list is
non-empty, persists and returns the completed dict otherwise. The second
component records every activity invocation in order. `Except.error` is a
workflow-level activity failure after retry exhaustion (the raised
`ActivityError`, which `run` does not catch). -/
def researchWorkflowRunWith (p : RetryPolicy) (env : WorkflowEnv)
    (request : WorkflowRequest) : Except String WorkflowResult × List ActivityCall :=
  let c1 := ActivityCall.queryFilter request
  match (executeWithRetry p (env.agent1 request)).result with
  | Except.error d => (Except.error d, [c1])
  | Except.ok a1 =>
    if a1.errors = [] then
      let i2 := mkAgent2Input request a1
      let c2 := ActivityCall.retrieverSummarizer i2
      match (executeWithRetry p (env.agent2 i2)).result with
      | Except.error d => (Except.error d, [c1, c2])
      | Except.ok a2 =>
        if a2.errors = [] then
          let i3 := mkAgent3Input request a2
          let c3 := ActivityCall.factCheckWriter i3
          match (executeWithRetry p (env.agent3 i3)).result with
          | Except.error d => (Except.error d, [c1, c2, c3])
          | Except.ok a3 =>
            if a3.errors = [] then
              let result := completedResult a1 a2 a3
              let si : SaveInput := ⟨request.request_id, result⟩
              let c4 := ActivityCall.saveResult si
              match (executeWithRetry p (env.save si)).result with
              | Except.error d => (Except.error d, [c1, c2, c3, c4])
              | Except.ok _ => (Except.ok result, [c1, c2, c3, c4])
            else (Except.ok (failResult "Fact-Check+Writer Agent" a3.errors), [c1, c2, c3])
        else (Except.ok (failResult "Retriever+Summarizer Agent" a2.errors), [c1, c2])
    else (Except.ok (failResult "Query+Filter Agent" a1.errors), [c1])

/-- `ResearchWorkflow.run` with the policy the source constructs. -/
def researchWorkflowRun (env : WorkflowEnv) (request : WorkflowRequest) :
    Except String WorkflowResult × List ActivityCall :=
  researchWorkflowRunWith workflowRetryPolicy env request

/-! ## Persistence (src/orchestration/activities.py, `save_research_result_activity`) -/

/-- A `research_requests` row, restricted to the columns the activity
touches (timestamps as integer seconds). -/
structure DBRecord where
  id : String
  status : String
  created_at : Option ℕ
  completed_at : Option ℕ
  processing_time_seconds : Option ℤ
  brief_data : Option String
deriving DecidableEq

/-- The `result` dict's keys the activity reads (`status`, `brief`). -/
structure SaveData where
  status : Option String
  brief : Option String
deriving DecidableEq

/-- The in-place mutation of the found row: `status` (defaulting to
COMPLETED), `brief_data`, `completed_at = utcnow()`, and
`processing_time_seconds = (utcnow() - created_at).total_seconds()` when
`created_at` is set. -/
def applySave (rec : DBRecord) (data : SaveData) (now : ℕ) : DBRecord :=
  { rec with
    status := data.status.getD ResearchStatus.completed.value
    brief_data := data.brief
    completed_at := some now
    processing_time_seconds :=
      match rec.created_at with
      | some c => some ((now : ℤ) - (c : ℤ))
      | none => rec.processing_time_seconds }

/-- `db.query(...).filter(id == request_id).first()` then mutate and commit:
update the first matching row in place; change nothing when no row matches
(`request_id` may be absent/None, matching nothing). -/
def updateFirstById : List DBRecord → Option String → SaveData → ℕ → List DBRecord
  | [], _, _, _ => []
  | rec :: rest, rid, data, now =>
    if some rec.id = rid then applySave rec data now :: rest
    else rec :: updateFirstById rest rid data now

/-- `save_research_result_activity`: returns the new table state and the
`{"success": True}` ack (it acks success even when no row was found; the
exception path is infrastructure failure outside this model). -/
def save_research_result_activity (db : List DBRecord) (request_id : Option String)
    (result : SaveData) (now : ℕ) : List DBRecord × Bool :=
  (updateFirstById db request_id result now, true)

/-- How many rows carry the given id. -/
def countById (db : List DBRecord) (rid : String) : ℕ :=
  (db.filter (fun r => decide (r.id = rid))).length

/-- The first row with the given id, as `.first()` would return it. -/
def findById : List DBRecord → String → Option DBRecord
  | [], _ => none
  | r :: rest, rid => if r.id = rid then some r else findById rest rid

/-! ## Agents' `run` methods (src/agents/) -/

/-- `AgentOutput` (src/data/models.py), with the per-agent `output_data`
type as a parameter and `metrics` as an ordered key/value list. -/
structure AgentOutput (α : Type) where
  agent_name : String
  output_data : α
  metrics : List (String × ℚ)
  errors : List String
  execution_time_ms : ℚ

/-- Whether a step's call into an external collaborator raised. -/
def exceptFailed {α : Type} : Except String α → Bool
  | .error _ => true
  | .ok _ => false

/-- The fields of the LLM's expansion dict the agent reads (the rest of
the payload is opaque). -/
structure Expansion where
  expanded_queries : List String
  mesh_terms : List String
deriving DecidableEq

/-- `output_data` of QueryFilterAgent: the dict built on success, or
`{"error": message}` from the except-branch. -/
inductive QFData where
  | ok (expansion : Expansion) (vetted_results : List String) (topic : String)
  | err (message : String)
deriving DecidableEq

/-- External collaborators of QueryFilterAgent.run: the two LLM-backed
steps, each either raising (with the exception's message) or returning;
`elapsed_ms` stands for the wall-clock timing. -/
structure QueryFilterEnv where
  expand_query : String → Option (String × String) → Bool → Except String Expansion
  vet_results : String → List String → ℚ → Except String (List String)
  elapsed_ms : ℚ

/-- Python truthiness of the optional `mock_search_results` argument
(`if mock_search_results:` — `None` and `[]` are both falsy). -/
def listOptTruthy {α : Type} : Option (List α) → Bool
  | some (_ :: _) => true
  | _ => false

/-- The try-block of `QueryFilterAgent.run`: the result of the step
sequence (first raised exception wins) together with the metrics entries
accumulated before any exception. -/
def qfBody (env : QueryFilterEnv) (topic : String) (quality_threshold : ℚ)
    (include_gray_literature : Bool) (date_range : Option (String × String))
    (mock_search_results : Option (List String)) :
    Except String (Expansion × List String) × List (String × ℚ) :=
  match env.expand_query topic date_range include_gray_literature with
  | .error m => (.error m, [])
  | .ok expansion =>
    let metrics := [("expanded_queries_count", (expansion.expanded_queries.length : ℚ)),
                    ("mesh_terms_count", (expansion.mesh_terms.length : ℚ))]
    match mock_search_results with
    | some (r :: rs) =>
      match env.vet_results topic (r :: rs) quality_threshold with
      | .error m => (.error m, metrics)
      | .ok vetted =>
        (.ok (expansion, vetted),
         metrics ++ [("results_before_vetting", ((r :: rs).length : ℚ)),
                     ("results_after_vetting", (vetted.length : ℚ)),
                     ("vetting_filter_rate",
                      1 - (vetted.length : ℚ) / (max (r :: rs).length 1 : ℕ))])
    | _ => (.ok (expansion, []), metrics)

/-- `QueryFilterAgent.run`: executes the try-block and wraps its outcome
into an `AgentOutput`, the except-branch recording the exception's message
in `errors` and as the `{"error": ...}` output. -/
def QueryFilterAgent.run (env : QueryFilterEnv) (topic : String) (max_sources : ℕ)
    (quality_threshold : ℚ) (include_gray_literature : Bool)
    (date_range : Option (String × String))
    (mock_search_results : Option (List String)) : AgentOutput QFData :=
  match qfBody env topic quality_threshold include_gray_literature date_range
      mock_search_results with
  | (.ok (expansion, vetted), metrics) =>
    ⟨"QueryFilterAgent", QFData.ok expansion (vetted.take max_sources) topic,
     metrics, [], env.elapsed_ms⟩
  | (.error m, metrics) =>
    ⟨"QueryFilterAgent", QFData.err m, metrics, [m], env.elapsed_ms⟩

/-- `output_data` of RetrieverSummarizerAgent. -/
inductive RSData where
  | ok (retrieved_documents : List FusedResult) (summary : String) (topic : String)
  | err (message : String)
deriving DecidableEq

/-- External collaborators of RetrieverSummarizerAgent.run. The two search
steps catch their own per-query exceptions internally and return a (possibly
partial) result list; only the summarization step can raise out of them. -/
structure RetrieverSummarizerEnv where
  bm25_search : List String → ℕ → List SearchResult
  vector_search : List String → ℕ → List SearchResult
  hierarchical_summarize : String → List FusedResult → Except String String
  elapsed_ms : ℚ

/-- `rerank`: `return results[:top_k]`. -/
def rerank (results : List FusedResult) (top_k : ℕ) : List FusedResult :=
  results.take top_k

/-- `RetrieverSummarizerAgent.run`: hybrid retrieval (bm25, vector,
fusion at the default `alpha = 0.5`, rerank) then summarization; any
raising step sends the exception's message to `errors`/`output_data`. -/
def RetrieverSummarizerAgent.run (env : RetrieverSummarizerEnv) (topic : String)
    (expanded_queries : List String) (top_k : ℕ) (rerank_top_k : ℕ) :
    AgentOutput RSData :=
  let bm25_results := env.bm25_search expanded_queries top_k
  let vector_results := env.vector_search expanded_queries top_k
  let fused_results := hybrid_fusion bm25_results vector_results (1 / 2)
  let reranked := rerank fused_results rerank_top_k
  let metrics := [("bm25_results_count", (bm25_results.length : ℚ)),
                  ("vector_results_count", (vector_results.length : ℚ)),
                  ("fused_results_count", (fused_results.length : ℚ)),
                  ("final_results_count", (reranked.length : ℚ))]
  match env.hierarchical_summarize topic reranked with
  | .error m =>
    ⟨"RetrieverSummarizerAgent", RSData.err m, metrics, [m], env.elapsed_ms⟩
  | .ok summary =>
    ⟨"RetrieverSummarizerAgent", RSData.ok reranked summary topic,
     metrics, [], env.elapsed_ms⟩

/-- The fields of the LLM's brief dict the agent reads (`word_count` may be
absent, defaulting to the text's word count). -/
structure BriefData where
  brief_text : String
  word_count : Option ℕ
  claims : List String
deriving DecidableEq

/-- Python's `len(brief_text.split())` (whitespace split, empties dropped;
modelled on the space character). -/
def pyWordCount (s : String) : ℕ :=
  ((s.splitOn " ").filter (fun w => decide (w ≠ ""))).length

/-- One `SourceMetadata` entry as built from a retrieved doc
(`quality_score = doc.get("hybrid_score", 0.0)`; the title/author fields
come from the opaque source payload, carried whole). -/
structure SourceMeta where
  source_id : String
  source_payload : String
  quality_score : ℚ
deriving DecidableEq

/-- Step 2 of the run: source metadata extraction (pure, cannot raise). -/
def mkSourceMeta (doc : FusedResult) : SourceMeta :=
  ⟨doc.doc_id, doc.source, doc.hybrid_score⟩

/-- The assembled `ResearchBrief`, restricted to the fields built from the
modelled steps. -/
structure BriefRecord where
  executive_brief : String
  word_count : ℕ
  sources : List SourceMeta
  citations : List String
  risk_flags : List String
  traceability : List String
deriving DecidableEq

/-- `output_data` of FactCheckWriterAgent. -/
inductive FCWData where
  | ok (research_brief : BriefRecord) (topic : String)
  | err (message : String)
deriving DecidableEq

/-- External collaborators of FactCheckWriterAgent.run: the LLM-backed
steps that can raise (`write_brief`, `assess_risks` — including RiskFlag
validation — and `build_traceability`, which fact-checks each claim), and
the pure citation extraction. -/
structure FactCheckWriterEnv where
  write_brief : String → String → Except String BriefData
  extract_citations : String → List FusedResult → List String
  assess_risks : String → List FusedResult → String → Except String (List String)
  build_traceability : List String → List FusedResult → Except String (List String)
  elapsed_ms : ℚ

/-- `FactCheckWriterAgent.run`: write brief, extract metadata and
citations, assess risks, build traceability, assemble the final brief;
any raising step sends the exception's message to `errors`/`output_data`. -/
def FactCheckWriterAgent.run (env : FactCheckWriterEnv) (topic : String)
    (retrieved_docs : List FusedResult) (summary_data : String) :
    AgentOutput FCWData :=
  match env.write_brief topic summary_data with
  | .error m => ⟨"FactCheckWriterAgent", FCWData.err m, [], [m], env.elapsed_ms⟩
  | .ok brief_data =>
    let brief_text := brief_data.brief_text
    let word_count := brief_data.word_count.getD (pyWordCount brief_text)
    let claims := brief_data.claims
    let m1 := [("word_count", (word_count : ℚ)), ("claims_count", (claims.length : ℚ))]
    let sources_metadata := retrieved_docs.map mkSourceMeta
    let citations := env.extract_citations brief_text retrieved_docs
    let m2 := m1 ++ [("citations_count", (citations.length : ℚ))]
    match env.assess_risks topic retrieved_docs summary_data with
    | .error m => ⟨"FactCheckWriterAgent", FCWData.err m, m2, [m], env.elapsed_ms⟩
    | .ok risk_flags =>
      let m3 := m2 ++ [("risk_flags_count", (risk_flags.length : ℚ))]
      match env.build_traceability claims retrieved_docs with
      | .error m => ⟨"FactCheckWriterAgent", FCWData.err m, m3, [m], env.elapsed_ms⟩
      | .ok traceability =>
        let m4 := m3 ++ [("traceability_entries", (traceability.length : ℚ))]
        ⟨"FactCheckWriterAgent",
         FCWData.ok ⟨brief_text, word_count, sources_metadata, citations,
                     risk_flags, traceability⟩ topic,
         m4, [], env.elapsed_ms⟩

/-- Whether QFData records the except-branch. -/
def QFData.isErr : QFData → Bool
  | .err _ => true
  | .ok _ _ _ => false

/-- Whether RSData records the except-branch. -/
def RSData.isErr : RSData → Bool
  | .err _ => true
  | .ok _ _ _ => false

/-- Whether FCWData records the except-branch. -/
def FCWData.isErr : FCWData → Bool
  | .err _ => true
  | .ok _ _ => false

/-! ## Concrete scenario data -/

/-- A benign activity dict (no errors, empty payloads). -/
def emptyActivityDict : ActivityDict := ⟨⟨none, none, none, none⟩, [], 0⟩

/-- An activity dict carrying a classified (semantic) failure. -/
def errorActivityDict : ActivityDict := ⟨⟨none, none, none, none⟩, ["boom"], 0⟩

/-- A concrete request dict. -/
def sampleRequest : WorkflowRequest := ⟨some "diabetes management", some 15, some "req-1"⟩

/-- Activity behaviours where stage 1 completes with a classified failure
on every attempt and everything else completes benignly. -/
def envStage1Fails : WorkflowEnv :=
  ⟨fun _ _ => .completed errorActivityDict,
   fun _ _ => .completed emptyActivityDict,
   fun _ _ => .completed emptyActivityDict,
   fun _ _ => .completed ⟨true, none⟩⟩

/-- Activity behaviours where stage 2 completes with a classified failure
on every attempt and everything else completes benignly. -/
def envStage2Fails : WorkflowEnv :=
  ⟨fun _ _ => .completed emptyActivityDict,
   fun _ _ => .completed errorActivityDict,
   fun _ _ => .completed emptyActivityDict,
   fun _ _ => .completed ⟨true, none⟩⟩

/-- QueryFilter collaborators whose expansion step raises. -/
def qfEnvRaises : QueryFilterEnv :=
  ⟨fun _ _ _ => .error "llm down", fun _ _ _ => .ok [], 0⟩

/-- RetrieverSummarizer collaborators whose summarization step raises. -/
def rsEnvRaises : RetrieverSummarizerEnv :=
  ⟨fun _ _ => [], fun _ _ => [], fun _ _ => .error "llm down", 0⟩

/-- FactCheckWriter collaborators whose brief-writing step raises. -/
def fcwEnvRaises : FactCheckWriterEnv :=
  ⟨fun _ _ => .error "llm down", fun _ _ => [], fun _ _ _ => .ok [],
   fun _ _ => .ok [], 0⟩

/-! ## Properties of the stable descending sort -/

theorem insertDesc_perm (x : FusedResult) (l : List FusedResult) :
    List.Perm (insertDesc x l) (x :: l) := by
  induction l with
  | nil => simp [insertDesc]
  | cons y ys ih =>
    simp only [insertDesc]
    split
    · exact List.Perm.refl _
    · exact (ih.cons y).trans (List.Perm.swap x y ys)

theorem sortDesc_perm (l : List FusedResult) : List.Perm (sortDesc l) l := by
  induction l with
  | nil => simp [sortDesc]
  | cons x xs ih =>
    exact (insertDesc_perm x (sortDesc xs)).trans (ih.cons x)

theorem insertDesc_mem {z x : FusedResult} {l : List FusedResult} :
    z ∈ insertDesc x l ↔ z = x ∨ z ∈ l := by
  rw [(insertDesc_perm x l).mem_iff, List.mem_cons]

theorem insertDesc_sorted {x : FusedResult} {l : List FusedResult}
    (h : List.Pairwise (fun a b => b.hybrid_score ≤ a.hybrid_score) l) :
    List.Pairwise (fun a b => b.hybrid_score ≤ a.hybrid_score) (insertDesc x l) := by
  induction l with
  | nil => simp [insertDesc]
  | cons y ys ih =>
    rw [List.pairwise_cons] at h
    obtain ⟨hy, hys⟩ := h
    simp only [insertDesc]
    split
    · rename_i hle
      rw [List.pairwise_cons]
      refine ⟨?_, List.pairwise_cons.mpr ⟨hy, hys⟩⟩
      intro z hz
      rcases List.mem_cons.mp hz with rfl | hz
      · exact hle
      · exact le_trans (hy z hz) hle
    · rename_i hlt
      rw [List.pairwise_cons]
      refine ⟨?_, ih hys⟩
      intro z hz
      rcases insertDesc_mem.mp hz with rfl | hz
      · exact le_of_not_le hlt
      · exact hy z hz

theorem sortDesc_sorted (l : List FusedResult) :
    List.Pairwise (fun a b => b.hybrid_score ≤ a.hybrid_score) (sortDesc l) := by
  induction l with
  | nil => simp [sortDesc]
  | cons x xs ih => exact insertDesc_sorted ih

theorem insertDesc_filter (x : FusedResult) (l : List FusedResult) (s : ℚ) :
    (insertDesc x l).filter (fun e => decide (e.hybrid_score = s))
      = if x.hybrid_score = s
        then x :: l.filter (fun e => decide (e.hybrid_score = s))
        else l.filter (fun e => decide (e.hybrid_score = s)) := by
  induction l with
  | nil =>
    by_cases hx : x.hybrid_score = s <;> simp [insertDesc, List.filter, hx]
  | cons y ys ih =>
    simp only [insertDesc]
    split
    · rename_i hle
      by_cases hx : x.hybrid_score = s <;> simp [List.filter_cons, hx]
    · rename_i hlt
      by_cases hx : x.hybrid_score = s
      · have hxy : ¬ y.hybrid_score = s := by
          intro hy
          exact hlt (le_of_eq (hx ▸ hy))
        simp [List.filter_cons, hx, hxy, ih]
      · by_cases hy : y.hybrid_score = s <;> simp [List.filter_cons, hx, hy, ih]

theorem sortDesc_filter (l : List FusedResult) (s : ℚ) :
    (sortDesc l).filter (fun e => decide (e.hybrid_score = s))
      = l.filter (fun e => decide (e.hybrid_score = s)) := by
  induction l with
  | nil => rfl
  | cons x xs ih =>
    simp only [sortDesc, insertDesc_filter, List.filter_cons]
    by_cases hx : x.hybrid_score = s <;> simp [hx, ih]

theorem insertDesc_of_ge {x : FusedResult} {l : List FusedResult}
    (h : ∀ z ∈ l, z.hybrid_score ≤ x.hybrid_score) : insertDesc x l = x :: l := by
  cases l with
  | nil => rfl
  | cons y ys => simp [insertDesc, h y (List.mem_cons_self y ys)]

theorem sortDesc_of_sorted {l : List FusedResult}
    (h : List.Pairwise (fun a b => b.hybrid_score ≤ a.hybrid_score) l) :
    sortDesc l = l := by
  induction l with
  | nil => rfl
  | cons x xs ih =>
    rw [List.pairwise_cons] at h
    obtain ⟨hx, hxs⟩ := h
    rw [sortDesc, ih hxs]
    exact insertDesc_of_ge hx

/-! ## Score characterization of the two fusion phases -/

theorem lookupEntry_updateBm25_self (s : List (String × DocEntry)) (id src : String)
    (rank : ℕ) :
    lookupEntry (updateBm25 s id src rank) id
      = some (match lookupEntry s id with
              | some e => { e with bm25_score := some (rrfScore rank) }
              | none => ⟨src, some (rrfScore rank), none⟩) := by
  induction s with
  | nil => simp [updateBm25, lookupEntry]
  | cons p rest ih =>
    obtain ⟨k', e⟩ := p
    by_cases hk' : k' = id
    · subst hk'
      simp [updateBm25, lookupEntry]
    · simp [updateBm25, lookupEntry, hk', ih]

theorem lookupEntry_updateBm25_other (s : List (String × DocEntry)) (id src : String)
    (rank : ℕ) (k : String) (h : k ≠ id) :
    lookupEntry (updateBm25 s id src rank) k = lookupEntry s k := by
  induction s with
  | nil => simp [updateBm25, lookupEntry, Ne.symm h]
  | cons p rest ih =>
    obtain ⟨k', e⟩ := p
    by_cases hk' : k' = id
    · subst hk'
      have : k' ≠ k := Ne.symm h
      simp [updateBm25, lookupEntry, this]
    · by_cases hkk : k' = k
      · subst hkk
        simp [updateBm25, lookupEntry, hk']
      · simp [updateBm25, lookupEntry, hk', hkk, ih]

theorem lookupEntry_updateVector_self (s : List (String × DocEntry)) (id src : String)
    (rank : ℕ) :
    lookupEntry (updateVector s id src rank) id
      = some (match lookupEntry s id with
              | some e => { e with vector_score := some (rrfScore rank) }
              | none => ⟨src, none, some (rrfScore rank)⟩) := by
  induction s with
  | nil => simp [updateVector, lookupEntry]
  | cons p rest ih =>
    obtain ⟨k', e⟩ := p
    by_cases hk' : k' = id
    · subst hk'
      simp [updateVector, lookupEntry]
    · simp [updateVector, lookupEntry, hk', ih]

theorem lookupEntry_updateVector_other (s : List (String × DocEntry)) (id src : String)
    (rank : ℕ) (k : String) (h : k ≠ id) :
    lookupEntry (updateVector s id src rank) k = lookupEntry s k := by
  induction s with
  | nil => simp [updateVector, lookupEntry, Ne.symm h]
  | cons p rest ih =>
    obtain ⟨k', e⟩ := p
    by_cases hk' : k' = id
    · subst hk'
      have : k' ≠ k := Ne.symm h
      simp [updateVector, lookupEntry, this]
    · by_cases hkk : k' = k
      · subst hkk
        simp [updateVector, lookupEntry, hk']
      · simp [updateVector, lookupEntry, hk', hkk, ih]

theorem bm25At_updateBm25 (s : List (String × DocEntry)) (id src : String) (rank : ℕ)
    (k : String) :
    bm25At (updateBm25 s id src rank) k
      = if k = id then rrfScore rank else bm25At s k := by
  by_cases hk : k = id
  · subst hk
    rw [bm25At, lookupEntry_updateBm25_self]
    cases h : lookupEntry s k <;> simp
  · rw [bm25At, lookupEntry_updateBm25_other s id src rank k hk, if_neg hk, bm25At]

theorem vecAt_updateBm25 (s : List (String × DocEntry)) (id src : String) (rank : ℕ)
    (k : String) :
    vecAt (updateBm25 s id src rank) k = vecAt s k := by
  by_cases hk : k = id
  · subst hk
    rw [vecAt, lookupEntry_updateBm25_self, vecAt]
    cases h : lookupEntry s k <;> simp
  · rw [vecAt, lookupEntry_updateBm25_other s id src rank k hk, vecAt]

theorem vecAt_updateVector (s : List (String × DocEntry)) (id src : String) (rank : ℕ)
    (k : String) :
    vecAt (updateVector s id src rank) k
      = if k = id then rrfScore rank else vecAt s k := by
  by_cases hk : k = id
  · subst hk
    rw [vecAt, lookupEntry_updateVector_self]
    cases h : lookupEntry s k <;> simp
  · rw [vecAt, lookupEntry_updateVector_other s id src rank k hk, if_neg hk, vecAt]

theorem bm25At_updateVector (s : List (String × DocEntry)) (id src : String) (rank : ℕ)
    (k : String) :
    bm25At (updateVector s id src rank) k = bm25At s k := by
  by_cases hk : k = id
  · subst hk
    rw [bm25At, lookupEntry_updateVector_self, bm25At]
    cases h : lookupEntry s k <;> simp
  · rw [bm25At, lookupEntry_updateVector_other s id src rank k hk, bm25At]

theorem bm25At_bm25Phase (l : List SearchResult) :
    ∀ (s : List (String × DocEntry)) (rank : ℕ) (k : String),
    bm25At (bm25Phase l s rank) k = (lastOccScore l k rank).getD (bm25At s k) := by
  induction l with
  | nil => intro s rank k; simp [bm25Phase, lastOccScore]
  | cons r rs ih =>
    intro s rank k
    simp only [bm25Phase, lastOccScore]
    rw [ih]
    cases h : lastOccScore rs k (rank + 1) with
    | some q => simp
    | none =>
      rw [bm25At_updateBm25]
      by_cases hk : r.doc_id = k
      · simp [hk]
      · simp [hk, Ne.symm hk]

theorem vecAt_bm25Phase (l : List SearchResult) :
    ∀ (s : List (String × DocEntry)) (rank : ℕ) (k : String),
    vecAt (bm25Phase l s rank) k = vecAt s k := by
  induction l with
  | nil => intro s rank k; simp [bm25Phase]
  | cons r rs ih =>
    intro s rank k
    simp only [bm25Phase]
    rw [ih, vecAt_updateBm25]

theorem vecAt_vectorPhase (l : List SearchResult) :
    ∀ (s : List (String × DocEntry)) (rank : ℕ) (k : String),
    vecAt (vectorPhase l s rank) k = (lastOccScore l k rank).getD (vecAt s k) := by
  induction l with
  | nil => intro s rank k; simp [vectorPhase, lastOccScore]
  | cons r rs ih =>
    intro s rank k
    simp only [vectorPhase, lastOccScore]
    rw [ih]
    cases h : lastOccScore rs k (rank + 1) with
    | some q => simp
    | none =>
      rw [vecAt_updateVector]
      by_cases hk : r.doc_id = k
      · simp [hk]
      · simp [hk, Ne.symm hk]

theorem bm25At_vectorPhase (l : List SearchResult) :
    ∀ (s : List (String × DocEntry)) (rank : ℕ) (k : String),
    bm25At (vectorPhase l s rank) k = bm25At s k := by
  induction l with
  | nil => intro s rank k; simp [vectorPhase]
  | cons r rs ih =>
    intro s rank k
    simp only [vectorPhase]
    rw [ih, bm25At_updateVector]

/-! ## Keys of the doc_scores dict: first-appearance order, no duplicates -/

theorem keysOf_updateBm25 (s : List (String × DocEntry)) (id src : String) (rank : ℕ) :
    keysOf (updateBm25 s id src rank)
      = if id ∈ keysOf s then keysOf s else keysOf s ++ [id] := by
  induction s with
  | nil => simp [updateBm25, keysOf]
  | cons p rest ih =>
    obtain ⟨k, e⟩ := p
    by_cases hk : k = id
    · subst hk
      simp [updateBm25, keysOf]
    · have h1 : keysOf (updateBm25 ((k, e) :: rest) id src rank)
          = k :: keysOf (updateBm25 rest id src rank) := by
        simp [updateBm25, if_neg hk, keysOf]
      have h2 : keysOf ((k, e) :: rest) = k :: keysOf rest := rfl
      have h3 : (id ∈ k :: keysOf rest) ↔ (id ∈ keysOf rest) := by
        simp [List.mem_cons, Ne.symm hk]
      rw [h1, ih, h2]
      by_cases hid : id ∈ keysOf rest
      · rw [if_pos hid, if_pos (h3.mpr hid)]
      · rw [if_neg hid, if_neg (fun hmem => hid (h3.mp hmem))]
        rfl

theorem keysOf_updateVector (s : List (String × DocEntry)) (id src : String) (rank : ℕ) :
    keysOf (updateVector s id src rank)
      = if id ∈ keysOf s then keysOf s else keysOf s ++ [id] := by
  induction s with
  | nil => simp [updateVector, keysOf]
  | cons p rest ih =>
    obtain ⟨k, e⟩ := p
    by_cases hk : k = id
    · subst hk
      simp [updateVector, keysOf]
    · have h1 : keysOf (updateVector ((k, e) :: rest) id src rank)
          = k :: keysOf (updateVector rest id src rank) := by
        simp [updateVector, if_neg hk, keysOf]
      have h2 : keysOf ((k, e) :: rest) = k :: keysOf rest := rfl
      have h3 : (id ∈ k :: keysOf rest) ↔ (id ∈ keysOf rest) := by
        simp [List.mem_cons, Ne.symm hk]
      rw [h1, ih, h2]
      by_cases hid : id ∈ keysOf rest
      · rw [if_pos hid, if_pos (h3.mpr hid)]
      · rw [if_neg hid, if_neg (fun hmem => hid (h3.mp hmem))]
        rfl

theorem keysOf_bm25Phase (l : List SearchResult) :
    ∀ (s : List (String × DocEntry)) (rank : ℕ),
    keysOf (bm25Phase l s rank) = keysOf s ++ firstDedupAux (keysOf s) (docIds l) := by
  induction l with
  | nil => intro s rank; simp [bm25Phase, docIds, firstDedupAux]
  | cons r rs ih =>
    intro s rank
    have hstep : bm25Phase (r :: rs) s rank
        = bm25Phase rs (updateBm25 s r.doc_id r.source rank) (rank + 1) := rfl
    have hdoc : docIds (r :: rs) = r.doc_id :: docIds rs := rfl
    rw [hstep, ih, keysOf_updateBm25, hdoc]
    by_cases hid : r.doc_id ∈ keysOf s
    · rw [if_pos hid]
      have : firstDedupAux (keysOf s) (r.doc_id :: docIds rs)
          = firstDedupAux (keysOf s) (docIds rs) := by
        simp [firstDedupAux, hid]
      rw [this]
    · rw [if_neg hid]
      have : firstDedupAux (keysOf s) (r.doc_id :: docIds rs)
          = r.doc_id :: firstDedupAux (keysOf s ++ [r.doc_id]) (docIds rs) := by
        simp [firstDedupAux, hid]
      rw [this, List.append_assoc]
      rfl

theorem keysOf_vectorPhase (l : List SearchResult) :
    ∀ (s : List (String × DocEntry)) (rank : ℕ),
    keysOf (vectorPhase l s rank) = keysOf s ++ firstDedupAux (keysOf s) (docIds l) := by
  induction l with
  | nil => intro s rank; simp [vectorPhase, docIds, firstDedupAux]
  | cons r rs ih =>
    intro s rank
    have hstep : vectorPhase (r :: rs) s rank
        = vectorPhase rs (updateVector s r.doc_id r.source rank) (rank + 1) := rfl
    have hdoc : docIds (r :: rs) = r.doc_id :: docIds rs := rfl
    rw [hstep, ih, keysOf_updateVector, hdoc]
    by_cases hid : r.doc_id ∈ keysOf s
    · rw [if_pos hid]
      have : firstDedupAux (keysOf s) (r.doc_id :: docIds rs)
          = firstDedupAux (keysOf s) (docIds rs) := by
        simp [firstDedupAux, hid]
      rw [this]
    · rw [if_neg hid]
      have : firstDedupAux (keysOf s) (r.doc_id :: docIds rs)
          = r.doc_id :: firstDedupAux (keysOf s ++ [r.doc_id]) (docIds rs) := by
        simp [firstDedupAux, hid]
      rw [this, List.append_assoc]
      rfl

theorem firstDedupAux_append (l1 l2 : List String) :
    ∀ seen, firstDedupAux seen (l1 ++ l2)
      = firstDedupAux seen l1 ++ firstDedupAux (seen ++ firstDedupAux seen l1) l2 := by
  induction l1 with
  | nil => intro seen; simp [firstDedupAux]
  | cons x xs ih =>
    intro seen
    simp only [List.cons_append, firstDedupAux]
    by_cases hx : x ∈ seen
    · simp only [if_pos hx]
      exact ih seen
    · simp only [if_neg hx, List.cons_append]
      have hshow : xs.append l2 = xs ++ l2 := rfl
      rw [hshow, ih (seen ++ [x])]
      have : seen ++ x :: firstDedupAux (seen ++ [x]) xs
          = (seen ++ [x]) ++ firstDedupAux (seen ++ [x]) xs := by
        simp
      rw [this]

theorem mem_firstDedupAux (x : String) (l : List String) :
    ∀ seen, x ∈ firstDedupAux seen l ↔ x ∈ l ∧ x ∉ seen := by
  induction l with
  | nil => intro seen; simp [firstDedupAux]
  | cons y ys ih =>
    intro seen
    simp only [firstDedupAux]
    by_cases hy : y ∈ seen
    · rw [if_pos hy, ih]
      constructor
      · rintro ⟨hm, hs⟩
        exact ⟨List.mem_cons_of_mem y hm, hs⟩
      · rintro ⟨hm, hs⟩
        rcases List.mem_cons.mp hm with rfl | hm
        · exact absurd hy hs
        · exact ⟨hm, hs⟩
    · rw [if_neg hy]
      constructor
      · intro hmem
        rcases List.mem_cons.mp hmem with rfl | hmem
        · exact ⟨List.mem_cons_self x ys, hy⟩
        · obtain ⟨hm, hs⟩ := (ih (seen ++ [y])).mp hmem
          refine ⟨List.mem_cons_of_mem y hm, ?_⟩
          intro hc
          exact hs (List.mem_append_left [y] hc)
      · rintro ⟨hm, hs⟩
        rcases List.mem_cons.mp hm with rfl | hm
        · exact List.mem_cons_self x _
        · by_cases hxy : x = y
          · exact hxy ▸ List.mem_cons_self x _
          · refine List.mem_cons_of_mem y ((ih (seen ++ [y])).mpr ⟨hm, ?_⟩)
            intro hc
            rcases List.mem_append.mp hc with hc | hc
            · exact hs hc
            · exact hxy (List.mem_singleton.mp hc)

theorem nodup_append_firstDedupAux (l : List String) :
    ∀ seen : List String, seen.Nodup → (seen ++ firstDedupAux seen l).Nodup := by
  induction l with
  | nil => intro seen h; simpa [firstDedupAux]
  | cons y ys ih =>
    intro seen h
    simp only [firstDedupAux]
    by_cases hy : y ∈ seen
    · rw [if_pos hy]
      exact ih seen h
    · rw [if_neg hy]
      have hsy : (seen ++ [y]).Nodup := by
        rw [List.nodup_append]
        refine ⟨h, List.nodup_singleton y, ?_⟩
        intro a ha hay
        rw [List.mem_singleton] at hay
        exact hy (hay ▸ ha)
      have := ih (seen ++ [y]) hsy
      have heq : seen ++ y :: firstDedupAux (seen ++ [y]) ys
          = (seen ++ [y]) ++ firstDedupAux (seen ++ [y]) ys := by simp
      rw [heq]
      exact this

/-! ## Occurrence scores -/

theorem lastOccScore_eq_none_iff (l : List SearchResult) (id : String) :
    ∀ rank, lastOccScore l id rank = none ↔ id ∉ docIds l := by
  induction l with
  | nil => intro rank; simp [lastOccScore, docIds]
  | cons r rs ih =>
    intro rank
    have hdoc : docIds (r :: rs) = r.doc_id :: docIds rs := rfl
    rw [hdoc]
    simp only [lastOccScore, List.mem_cons]
    cases h : lastOccScore rs id (rank + 1) with
    | some q =>
      have hmem : id ∈ docIds rs := by
        by_contra hmem
        have hn := (ih (rank + 1)).mpr hmem
        rw [h] at hn
        cases hn
      constructor
      · intro hcon
        exact absurd hcon (by simp)
      · intro hcon
        exact absurd (Or.inr hmem) hcon
    | none =>
      have hmem : id ∉ docIds rs := (ih (rank + 1)).mp h
      by_cases hr : r.doc_id = id
      · rw [if_pos hr]
        constructor
        · intro hcon
          exact absurd hcon (by simp)
        · intro hcon
          exact absurd (Or.inl hr.symm) hcon
      · rw [if_neg hr]
        constructor
        · intro _
          rintro (h1 | h2)
          · exact hr h1.symm
          · exact hmem h2
        · intro _
          rfl

theorem rrfScore_pos (rank : ℕ) : 0 < rrfScore rank := by
  rw [rrfScore]
  positivity

theorem rrfScore_lt_rrfScore {r1 r2 : ℕ} (h : r1 < r2) : rrfScore r2 < rrfScore r1 := by
  rw [rrfScore, rrfScore]
  apply one_div_lt_one_div_of_lt
  · positivity
  · have : (r1 : ℚ) < (r2 : ℚ) := by exact_mod_cast h
    linarith

theorem lastOccScore_pos (l : List SearchResult) (id : String) :
    ∀ rank q, lastOccScore l id rank = some q → 0 < q := by
  induction l with
  | nil => intro rank q h; simp [lastOccScore] at h
  | cons r rs ih =>
    intro rank q h
    simp only [lastOccScore] at h
    cases h' : lastOccScore rs id (rank + 1) with
    | some q' =>
      rw [h'] at h
      simp at h
      exact h ▸ ih (rank + 1) q' h'
    | none =>
      rw [h'] at h
      by_cases hr : r.doc_id = id
      · rw [if_pos hr] at h
        cases h
        exact rrfScore_pos rank
      · rw [if_neg hr] at h
        cases h

theorem lastOccScore_getD_pos {l : List SearchResult} {id : String}
    (h : id ∈ docIds l) : 0 < (lastOccScore l id 1).getD 0 := by
  cases hy : lastOccScore l id 1 with
  | some q => simpa using lastOccScore_pos l id 1 q hy
  | none => exact absurd ((lastOccScore_eq_none_iff l id 1).mp hy) (by simpa using h)

theorem lastOccScore_getD_zero {l : List SearchResult} {id : String}
    (h : id ∉ docIds l) : (lastOccScore l id 1).getD 0 = 0 := by
  rw [(lastOccScore_eq_none_iff l id 1).mpr h]
  rfl

theorem firstOccScore_eq_none_iff (l : List SearchResult) (id : String) :
    ∀ rank, firstOccScore l id rank = none ↔ id ∉ docIds l := by
  induction l with
  | nil => intro rank; simp [firstOccScore, docIds]
  | cons r rs ih =>
    intro rank
    have hdoc : docIds (r :: rs) = r.doc_id :: docIds rs := rfl
    rw [hdoc]
    simp only [firstOccScore, List.mem_cons]
    by_cases hr : r.doc_id = id
    · rw [if_pos hr]
      constructor
      · intro hcon
        exact absurd hcon (by simp)
      · intro hcon
        exact absurd (Or.inl hr.symm) hcon
    · rw [if_neg hr, ih]
      constructor
      · intro hm
        rintro (h1 | h2)
        · exact hr h1.symm
        · exact hm h2
      · intro hm hmem
        exact hm (Or.inr hmem)

theorem lastOccScore_eq_firstOccScore (l : List SearchResult)
    (h : (docIds l).Nodup) (id : String) :
    ∀ rank, lastOccScore l id rank = firstOccScore l id rank := by
  induction l with
  | nil => intro rank; simp [lastOccScore, firstOccScore]
  | cons r rs ih =>
    intro rank
    simp only [docIds, List.map_cons, List.nodup_cons] at h
    obtain ⟨hr, hrs⟩ := h
    simp only [lastOccScore, firstOccScore]
    by_cases hid : r.doc_id = id
    · subst hid
      have : lastOccScore rs r.doc_id (rank + 1) = none :=
        (lastOccScore_eq_none_iff rs r.doc_id (rank + 1)).mpr (by simpa [docIds] using hr)
      simp [this]
    · rw [if_neg hid, ← ih hrs (rank + 1)]
      cases hl : lastOccScore rs id (rank + 1) <;> simp [hid]

theorem firstOccScore_get (l : List SearchResult) (h : (docIds l).Nodup) :
    ∀ (i : ℕ) (hi : i < l.length) (rank : ℕ),
    firstOccScore l ((l.get ⟨i, hi⟩).doc_id) rank = some (rrfScore (rank + i)) := by
  induction l with
  | nil => intro i hi; exact absurd hi (by simp)
  | cons r rs ih =>
    intro i hi rank
    simp only [docIds, List.map_cons, List.nodup_cons] at h
    obtain ⟨hr, hrs⟩ := h
    cases i with
    | zero => simp [firstOccScore, List.get]
    | succ n =>
      have hn : n < rs.length := Nat.lt_of_succ_lt_succ hi
      have hget : (r :: rs).get ⟨n + 1, hi⟩ = rs.get ⟨n, hn⟩ := rfl
      rw [hget]
      have hne : ¬ r.doc_id = (rs.get ⟨n, hn⟩).doc_id := by
        intro hcon
        apply hr
        rw [hcon]
        exact List.mem_map_of_mem SearchResult.doc_id (rs.get_mem n hn)
      simp only [firstOccScore, if_neg hne]
      rw [ih hrs n hn (rank + 1)]
      have : rank + 1 + n = rank + (n + 1) := by omega
      rw [this]

theorem lastOccScore_of_last (l : List SearchResult) (id : String) :
    ∀ (i : ℕ) (hi : i < l.length), (l.get ⟨i, hi⟩).doc_id = id →
    (∀ j : Fin l.length, i < (j : ℕ) → (l.get j).doc_id ≠ id) →
    ∀ rank, lastOccScore l id rank = some (rrfScore (rank + i)) := by
  induction l with
  | nil => intro i hi; exact absurd hi (by simp)
  | cons r rs ih =>
    intro i hi hocc hlast rank
    cases i with
    | zero =>
      have hnone : lastOccScore rs id (rank + 1) = none := by
        rw [lastOccScore_eq_none_iff]
        intro hmem
        simp only [docIds, List.mem_map] at hmem
        obtain ⟨x, hx, hxid⟩ := hmem
        obtain ⟨n, hget⟩ := List.mem_iff_get.mp hx
        refine hlast ⟨(n : ℕ) + 1, Nat.succ_lt_succ n.isLt⟩ (Nat.succ_pos (n : ℕ)) ?_
        have hcons : (r :: rs).get ⟨(n : ℕ) + 1, Nat.succ_lt_succ n.isLt⟩
            = rs.get ⟨(n : ℕ), n.isLt⟩ := rfl
        rw [hcons, Fin.eta, hget]
        exact hxid
      simp only [lastOccScore, hnone]
      have hr : r.doc_id = id := hocc
      simp [hr]
    | succ n =>
      have hn : n < rs.length := Nat.lt_of_succ_lt_succ hi
      have hocc' : (rs.get ⟨n, hn⟩).doc_id = id := hocc
      have hlast' : ∀ j : Fin rs.length, n < (j : ℕ) → (rs.get j).doc_id ≠ id := by
        intro j hj
        have hcons : (r :: rs).get ⟨(j : ℕ) + 1, Nat.succ_lt_succ j.isLt⟩
            = rs.get ⟨(j : ℕ), j.isLt⟩ := rfl
        have := hlast ⟨(j : ℕ) + 1, Nat.succ_lt_succ j.isLt⟩ (Nat.succ_lt_succ hj)
        rw [hcons, Fin.eta] at this
        exact this
      have hrec := ih n hn hocc' hlast' (rank + 1)
      simp only [lastOccScore, hrec]
      have harith : rank + 1 + n = rank + (n + 1) := by omega
      rw [harith]

/-! ## The fused entries' scores -/

theorem lookupEntry_of_mem {s : List (String × DocEntry)} (h : (keysOf s).Nodup)
    {k : String} {e : DocEntry} (hm : (k, e) ∈ s) : lookupEntry s k = some e := by
  induction s with
  | nil => simp at hm
  | cons p rest ih =>
    obtain ⟨k', e'⟩ := p
    have hkeys : keysOf ((k', e') :: rest) = k' :: keysOf rest := rfl
    rw [hkeys, List.nodup_cons] at h
    obtain ⟨hk', hrest⟩ := h
    rcases List.mem_cons.mp hm with heq | hm
    · cases heq
      simp [lookupEntry]
    · simp only [lookupEntry]
      by_cases hkk : k' = k
      · subst hkk
        exfalso
        apply hk'
        simp only [keysOf]
        exact List.mem_map_of_mem Prod.fst hm
      · rw [if_neg hkk]
        exact ih hrest hm

theorem fusionAssoc_keys (A B : List SearchResult) :
    keysOf (vectorPhase B (bm25Phase A [] 1) 1) = firstDedup (docIds A ++ docIds B) := by
  rw [keysOf_vectorPhase, keysOf_bm25Phase]
  have h0 : keysOf ([] : List (String × DocEntry)) = [] := rfl
  rw [h0]
  simp only [List.nil_append]
  rw [firstDedup, firstDedupAux_append]
  simp only [List.nil_append]

theorem firstDedup_nodup (l : List String) : (firstDedup l).Nodup := by
  have := nodup_append_firstDedupAux l [] List.nodup_nil
  simpa [firstDedup] using this

theorem mem_firstDedup (x : String) (l : List String) : x ∈ firstDedup l ↔ x ∈ l := by
  rw [firstDedup, mem_firstDedupAux]
  simp

theorem map_docId_fuseEntry (w : ℚ) (s : List (String × DocEntry)) :
    (s.map (fuseEntry w)).map FusedResult.doc_id = keysOf s := by
  induction s with
  | nil => rfl
  | cons p t ih =>
    have h1 : ((p :: t).map (fuseEntry w)).map FusedResult.doc_id
        = (fuseEntry w p).doc_id :: (t.map (fuseEntry w)).map FusedResult.doc_id := rfl
    have h2 : keysOf (p :: t) = p.1 :: keysOf t := rfl
    rw [h1, h2, ih]
    rfl

theorem fusion_pre_ids (A B : List SearchResult) (w : ℚ) :
    (fusedUnsorted A B w).map FusedResult.doc_id = firstDedup (docIds A ++ docIds B) := by
  rw [fusedUnsorted, map_docId_fuseEntry, fusionAssoc_keys]

theorem fusion_ids_perm (A B : List SearchResult) (w : ℚ) :
    List.Perm ((hybrid_fusion A B w).map FusedResult.doc_id)
      (firstDedup (docIds A ++ docIds B)) := by
  rw [hybrid_fusion]
  have h := (sortDesc_perm (fusedUnsorted A B w)).map FusedResult.doc_id
  rw [fusion_pre_ids] at h
  exact h

theorem fusion_ids_nodup (A B : List SearchResult) (w : ℚ) :
    ((hybrid_fusion A B w).map FusedResult.doc_id).Nodup :=
  (fusion_ids_perm A B w).nodup_iff.mpr (firstDedup_nodup _)

theorem fusion_ids_mem (A B : List SearchResult) (w : ℚ) (id : String) :
    id ∈ (hybrid_fusion A B w).map FusedResult.doc_id
      ↔ id ∈ docIds A ∨ id ∈ docIds B := by
  rw [(fusion_ids_perm A B w).mem_iff, mem_firstDedup, List.mem_append]

theorem fusion_entry_char {A B : List SearchResult} {w : ℚ} {e : FusedResult}
    (he : e ∈ hybrid_fusion A B w) :
    e.bm25_score = (lastOccScore A e.doc_id 1).getD 0
    ∧ e.vector_score = (lastOccScore B e.doc_id 1).getD 0
    ∧ e.hybrid_score = w * e.bm25_score + (1 - w) * e.vector_score := by
  rw [hybrid_fusion] at he
  have he' : e ∈ fusedUnsorted A B w := (sortDesc_perm _).mem_iff.mp he
  rw [fusedUnsorted, List.mem_map] at he'
  obtain ⟨p, hp, hfe⟩ := he'
  obtain ⟨k, ent⟩ := p
  have hnod : (keysOf (vectorPhase B (bm25Phase A [] 1) 1)).Nodup := by
    rw [fusionAssoc_keys]
    exact firstDedup_nodup _
  have hlook : lookupEntry (vectorPhase B (bm25Phase A [] 1) 1) k = some ent :=
    lookupEntry_of_mem hnod hp
  have hb : bm25At (vectorPhase B (bm25Phase A [] 1) 1) k = ent.bm25_score.getD 0 := by
    rw [bm25At, hlook]
  have hv : vecAt (vectorPhase B (bm25Phase A [] 1) 1) k = ent.vector_score.getD 0 := by
    rw [vecAt, hlook]
  have hb2 : bm25At (vectorPhase B (bm25Phase A [] 1) 1) k = (lastOccScore A k 1).getD 0 := by
    rw [bm25At_vectorPhase, bm25At_bm25Phase]
    have h0 : bm25At ([] : List (String × DocEntry)) k = 0 := rfl
    rw [h0]
  have hv2 : vecAt (vectorPhase B (bm25Phase A [] 1) 1) k = (lastOccScore B k 1).getD 0 := by
    rw [vecAt_vectorPhase, vecAt_bm25Phase]
    have h0 : vecAt ([] : List (String × DocEntry)) k = 0 := rfl
    rw [h0]
  subst hfe
  have hdoc : (fuseEntry w (k, ent)).doc_id = k := rfl
  have hbs : (fuseEntry w (k, ent)).bm25_score = ent.bm25_score.getD 0 := rfl
  have hvs : (fuseEntry w (k, ent)).vector_score = ent.vector_score.getD 0 := rfl
  refine ⟨?_, ?_, ?_⟩
  · rw [hdoc, hbs, ← hb, hb2]
  · rw [hdoc, hvs, ← hv, hv2]
  · rfl

/-! ## Fusion of a duplicate-free list against an empty list -/

theorem updateBm25_append {s : List (String × DocEntry)} {id : String} (src : String)
    (rank : ℕ) (h : id ∉ keysOf s) :
    updateBm25 s id src rank = s ++ [(id, ⟨src, some (rrfScore rank), none⟩)] := by
  induction s with
  | nil => rfl
  | cons p rest ih =>
    obtain ⟨k, e⟩ := p
    have hkeys : keysOf ((k, e) :: rest) = k :: keysOf rest := rfl
    rw [hkeys] at h
    have h1 : ¬ k = id := fun hc => h (hc ▸ List.mem_cons_self k (keysOf rest))
    have h2 : id ∉ keysOf rest := fun hc => h (List.mem_cons_of_mem k hc)
    simp only [updateBm25, if_neg h1]
    rw [ih h2]
    rfl

theorem keysOf_enumRanks (A : List SearchResult) :
    ∀ rank, keysOf (enumRanks A rank) = docIds A := by
  induction A with
  | nil => intro rank; rfl
  | cons r rs ih =>
    intro rank
    have h1 : keysOf (enumRanks (r :: rs) rank)
        = r.doc_id :: keysOf (enumRanks rs (rank + 1)) := rfl
    have h2 : docIds (r :: rs) = r.doc_id :: docIds rs := rfl
    rw [h1, h2, ih]

theorem bm25Phase_enum (A : List SearchResult) :
    ∀ (s : List (String × DocEntry)) (rank : ℕ),
    (docIds A).Nodup → (∀ id ∈ docIds A, id ∉ keysOf s) →
    bm25Phase A s rank = s ++ enumRanks A rank := by
  induction A with
  | nil => intro s rank _ _; simp [bm25Phase, enumRanks]
  | cons r rs ih =>
    intro s rank hA hdis
    have hd : docIds (r :: rs) = r.doc_id :: docIds rs := rfl
    rw [hd, List.nodup_cons] at hA
    obtain ⟨hr, hrs⟩ := hA
    have hrdis : r.doc_id ∉ keysOf s :=
      hdis r.doc_id (by rw [hd]; exact List.mem_cons_self _ _)
    have hstep : bm25Phase (r :: rs) s rank
        = bm25Phase rs (updateBm25 s r.doc_id r.source rank) (rank + 1) := rfl
    rw [hstep, updateBm25_append r.source rank hrdis]
    have hdis' : ∀ id ∈ docIds rs,
        id ∉ keysOf (s ++ [(r.doc_id, ⟨r.source, some (rrfScore rank), none⟩)]) := by
      intro id hid hc
      have hks : keysOf (s ++ [(r.doc_id, ⟨r.source, some (rrfScore rank), none⟩)])
          = keysOf s ++ [r.doc_id] := by
        simp [keysOf]
      rw [hks] at hc
      rcases List.mem_append.mp hc with hc | hc
      · exact hdis id (by rw [hd]; exact List.mem_cons_of_mem _ hid) hc
      · exact hr (List.mem_singleton.mp hc ▸ hid)
    have hrec := ih _ (rank + 1) hrs hdis'
    rw [hrec, List.append_assoc]
    rfl

theorem enumRanks_fused_sorted (A : List SearchResult) : ∀ rank : ℕ,
    List.Pairwise (fun a b => b.hybrid_score ≤ a.hybrid_score)
      ((enumRanks A rank).map (fuseEntry 1))
    ∧ ∀ e ∈ (enumRanks A rank).map (fuseEntry 1), e.hybrid_score ≤ rrfScore rank := by
  induction A with
  | nil =>
    intro rank
    constructor
    · simp [enumRanks]
    · simp [enumRanks]
  | cons r rs ih =>
    intro rank
    obtain ⟨ihp, ihb⟩ := ih (rank + 1)
    have hhead : (fuseEntry 1 (r.doc_id,
        (⟨r.source, some (rrfScore rank), none⟩ : DocEntry))).hybrid_score
        = rrfScore rank := by
      simp [fuseEntry]
    have hcons : (enumRanks (r :: rs) rank).map (fuseEntry 1)
        = fuseEntry 1 (r.doc_id, (⟨r.source, some (rrfScore rank), none⟩ : DocEntry))
          :: (enumRanks rs (rank + 1)).map (fuseEntry 1) := rfl
    have hmono : rrfScore (rank + 1) ≤ rrfScore rank :=
      le_of_lt (rrfScore_lt_rrfScore (by omega))
    constructor
    · rw [hcons, List.pairwise_cons]
      constructor
      · intro e he
        rw [hhead]
        exact le_trans (ihb e he) hmono
      · exact ihp
    · intro e he
      rw [hcons] at he
      rcases List.mem_cons.mp he with rfl | he
      · rw [hhead]
      · exact le_trans (ihb e he) hmono

/-! ## Claim theorems: rank fusion -/

/-- C2, counterexample: with the duplicate list `[a, a]` as the bm25 input,
fusion scores `a` as `1/62` — the reciprocal score of the LAST-seen rank 2 —
not `1/61` as the claim's "first-seen rank" would require; duplicates
overwrite the score rather than being ignored. -/
theorem hybrid_fusion_first_seen_rank_refuted :
    (hybrid_fusion [⟨"a", "s1"⟩, ⟨"a", "s2"⟩] [] 1).map
        (fun e => (e.doc_id, e.bm25_score)) = [("a", (1 : ℚ)/62)]
    ∧ ((1 : ℚ)/62 ≠ 1/61) := by
  constructor
  · norm_num [hybrid_fusion, fusedUnsorted, bm25Phase, vectorPhase, updateBm25,
      updateVector, fuseEntry, sortDesc, insertDesc, rrfScore]
  · norm_num

/-- C2, amended: a duplicated identifier is treated as one occurrence, but
at its LAST-seen 1-based rank: its per-source score (on either side) is
`1/(60 + last-seen rank)` — later occurrences replace the score (they are
not summed, and they are not ignored). -/
theorem hybrid_fusion_duplicate_last_seen_rank
    (A B : List SearchResult) (w : ℚ) (e : FusedResult) (a b : SearchResult) (i j : ℕ)
    (he : e ∈ hybrid_fusion A B w) :
    (A.get? i = some a → a.doc_id = e.doc_id →
      (∀ p : Fin A.length, i < (p : ℕ) → (A.get p).doc_id ≠ e.doc_id) →
      e.bm25_score = rrfScore (i + 1))
    ∧ (B.get? j = some b → b.doc_id = e.doc_id →
      (∀ p : Fin B.length, j < (p : ℕ) → (B.get p).doc_id ≠ e.doc_id) →
      e.vector_score = rrfScore (j + 1)) := by
  constructor
  · intro hget hdoc hlast
    obtain ⟨hlt, hg⟩ := List.get?_eq_some.mp hget
    have h := lastOccScore_of_last A e.doc_id i hlt (by rw [hg]; exact hdoc) hlast 1
    rw [(fusion_entry_char he).1, h, Nat.add_comm 1 i]
    rfl
  · intro hget hdoc hlast
    obtain ⟨hlt, hg⟩ := List.get?_eq_some.mp hget
    have h := lastOccScore_of_last B e.doc_id j hlt (by rw [hg]; exact hdoc) hlast 1
    rw [(fusion_entry_char he).2.1, h, Nat.add_comm 1 j]
    rfl

/-- Witness for C2's amended theorem: in `fuse([a@1, a@2], [], 1)` the
fused entry for `a` carries the rank-2 score. -/
theorem hybrid_fusion_duplicate_last_seen_rank_witness :
    (⟨"a", "s1", 1/62, 1/62, 0⟩ : FusedResult).bm25_score = rrfScore 2 := by
  have hev : hybrid_fusion [⟨"a", "s1"⟩, ⟨"a", "s2"⟩] [] 1
      = [⟨"a", "s1", 1/62, 1/62, 0⟩] := by
    norm_num [hybrid_fusion, fusedUnsorted, bm25Phase, vectorPhase, updateBm25,
      updateVector, fuseEntry, sortDesc, insertDesc, rrfScore]
  have hmem : (⟨"a", "s1", 1/62, 1/62, 0⟩ : FusedResult)
      ∈ hybrid_fusion [⟨"a", "s1"⟩, ⟨"a", "s2"⟩] [] 1 := by
    rw [hev]
    exact List.mem_singleton_self _
  exact (hybrid_fusion_duplicate_last_seen_rank [⟨"a", "s1"⟩, ⟨"a", "s2"⟩] [] 1
    _ ⟨"a", "s2"⟩ ⟨"z", "z"⟩ 1 0 hmem).1 rfl rfl (by decide)

/-- C3: the fused output's identifier set is exactly the union of the two
input identifier sets, each identifier appears in exactly one output entry,
an identifier present in an input list has that list's per-source score
non-zero, and an identifier absent from an input list has that list's
per-source score zero. -/
theorem hybrid_fusion_completeness (A B : List SearchResult) (w : ℚ)
    (id : String) (e : FusedResult) :
    ((hybrid_fusion A B w).map FusedResult.doc_id).Nodup
    ∧ (id ∈ (hybrid_fusion A B w).map FusedResult.doc_id
        ↔ id ∈ docIds A ∨ id ∈ docIds B)
    ∧ (e ∈ hybrid_fusion A B w → e.doc_id ∈ docIds A → e.bm25_score ≠ 0)
    ∧ (e ∈ hybrid_fusion A B w → e.doc_id ∉ docIds A → e.bm25_score = 0)
    ∧ (e ∈ hybrid_fusion A B w → e.doc_id ∈ docIds B → e.vector_score ≠ 0)
    ∧ (e ∈ hybrid_fusion A B w → e.doc_id ∉ docIds B → e.vector_score = 0) := by
  refine ⟨fusion_ids_nodup A B w, fusion_ids_mem A B w id, ?_, ?_, ?_, ?_⟩
  · intro he hm
    rw [(fusion_entry_char he).1]
    exact ne_of_gt (lastOccScore_getD_pos hm)
  · intro he hm
    rw [(fusion_entry_char he).1]
    exact lastOccScore_getD_zero hm
  · intro he hm
    rw [(fusion_entry_char he).2.1]
    exact ne_of_gt (lastOccScore_getD_pos hm)
  · intro he hm
    rw [(fusion_entry_char he).2.1]
    exact lastOccScore_getD_zero hm

/-- Witness for C3 at `fuse([a], [b], 1/2)`: the `a`-entry's bm25 score is
non-zero and its vector score is zero, and the output identifiers are
duplicate-free. -/
theorem hybrid_fusion_completeness_witness :
    (⟨"a", "s", 1/122, 1/61, 0⟩ : FusedResult).bm25_score ≠ 0
    ∧ (⟨"a", "s", 1/122, 1/61, 0⟩ : FusedResult).vector_score = 0
    ∧ ((hybrid_fusion [⟨"a", "s"⟩] [⟨"b", "t"⟩] (1/2)).map FusedResult.doc_id).Nodup := by
  have hev : hybrid_fusion [⟨"a", "s"⟩] [⟨"b", "t"⟩] (1/2)
      = [⟨"a", "s", 1/122, 1/61, 0⟩, ⟨"b", "t", 1/122, 0, 1/61⟩] := by
    norm_num [hybrid_fusion, fusedUnsorted, bm25Phase, vectorPhase, updateBm25,
      updateVector, fuseEntry, sortDesc, insertDesc, rrfScore]
  have hmem : (⟨"a", "s", 1/122, 1/61, 0⟩ : FusedResult)
      ∈ hybrid_fusion [⟨"a", "s"⟩] [⟨"b", "t"⟩] (1/2) := by
    rw [hev]
    exact List.mem_cons_self _ _
  have hfull := hybrid_fusion_completeness [⟨"a", "s"⟩] [⟨"b", "t"⟩] (1/2) "a"
    ⟨"a", "s", 1/122, 1/61, 0⟩
  exact ⟨hfull.2.2.1 hmem (by decide), hfull.2.2.2.2.2 hmem (by decide), hfull.1⟩

/-- C4: on duplicate-free inputs, each fused entry's combined score is
`w × (1/(60 + rank in A), or 0 if absent) + (1 − w) × (1/(60 + rank in B),
or 0 if absent)` with 1-based ranks (the last two conjuncts tie
`firstOccScore` to the 1-based position in the list). -/
theorem hybrid_fusion_weighted_combination
    (A B : List SearchResult) (w : ℚ) (e : FusedResult) (a : SearchResult) (i : ℕ)
    (hA : (docIds A).Nodup) (hB : (docIds B).Nodup)
    (hw0 : 0 ≤ w) (hw1 : w ≤ 1) (he : e ∈ hybrid_fusion A B w) :
    e.hybrid_score
      = w * (firstOccScore A e.doc_id 1).getD 0
        + (1 - w) * (firstOccScore B e.doc_id 1).getD 0
    ∧ (e.doc_id ∉ docIds A → (firstOccScore A e.doc_id 1).getD 0 = 0)
    ∧ (e.doc_id ∉ docIds B → (firstOccScore B e.doc_id 1).getD 0 = 0)
    ∧ (A.get? i = some a → a.doc_id = e.doc_id →
        firstOccScore A e.doc_id 1 = some (rrfScore (i + 1)))
    ∧ (B.get? i = some a → a.doc_id = e.doc_id →
        firstOccScore B e.doc_id 1 = some (rrfScore (i + 1))) := by
  obtain ⟨hb, hv, hh⟩ := fusion_entry_char he
  refine ⟨?_, ?_, ?_, ?_, ?_⟩
  · rw [hh, hb, hv, lastOccScore_eq_firstOccScore A hA, lastOccScore_eq_firstOccScore B hB]
  · intro hm
    rw [(firstOccScore_eq_none_iff A e.doc_id 1).mpr hm]
    rfl
  · intro hm
    rw [(firstOccScore_eq_none_iff B e.doc_id 1).mpr hm]
    rfl
  · intro hga hdoc
    obtain ⟨hlt, hget⟩ := List.get?_eq_some.mp hga
    have hsc := firstOccScore_get A hA i hlt 1
    rw [hget, hdoc] at hsc
    rw [hsc, Nat.add_comm 1 i]
  · intro hgb hdoc
    obtain ⟨hlt, hget⟩ := List.get?_eq_some.mp hgb
    have hsc := firstOccScore_get B hB i hlt 1
    rw [hget, hdoc] at hsc
    rw [hsc, Nat.add_comm 1 i]

/-- Witness for C4: a document ranked #1 in both lists with weight `1/2`
scores exactly `1/61`. -/
theorem hybrid_fusion_weighted_combination_witness :
    (⟨"d", "x", 1/61, 1/61, 1/61⟩ : FusedResult).hybrid_score
      = (1/2 : ℚ) * (firstOccScore [⟨"d", "x"⟩] "d" 1).getD 0
        + (1 - 1/2) * (firstOccScore [⟨"d", "y"⟩] "d" 1).getD 0
    ∧ (⟨"d", "x", 1/61, 1/61, 1/61⟩ : FusedResult).hybrid_score = 1/61 := by
  have hev : hybrid_fusion [⟨"d", "x"⟩] [⟨"d", "y"⟩] (1/2)
      = [⟨"d", "x", 1/61, 1/61, 1/61⟩] := by
    norm_num [hybrid_fusion, fusedUnsorted, bm25Phase, vectorPhase, updateBm25,
      updateVector, fuseEntry, sortDesc, insertDesc, rrfScore]
  have hmem : (⟨"d", "x", 1/61, 1/61, 1/61⟩ : FusedResult)
      ∈ hybrid_fusion [⟨"d", "x"⟩] [⟨"d", "y"⟩] (1/2) := by
    rw [hev]
    exact List.mem_singleton_self _
  have hfull := hybrid_fusion_weighted_combination [⟨"d", "x"⟩] [⟨"d", "y"⟩] (1/2)
    ⟨"d", "x", 1/61, 1/61, 1/61⟩ ⟨"d", "x"⟩ 0 (by decide) (by decide)
    (by norm_num) (by norm_num) hmem
  exact ⟨hfull.1, rfl⟩

/-- C5: the fused output is sorted by combined score descending; entries
with equal combined scores keep the pre-sort order, and the pre-sort order
is the order of each identifier's first appearance across the inputs
(listA scanned before listB); fusion is a pure function, so repeated
invocation on identical inputs trivially yields identical output. -/
theorem hybrid_fusion_sorted_stable_deterministic (A B : List SearchResult) (w s : ℚ) :
    List.Pairwise (fun x y => y.hybrid_score ≤ x.hybrid_score) (hybrid_fusion A B w)
    ∧ (hybrid_fusion A B w).filter (fun e => decide (e.hybrid_score = s))
        = (fusedUnsorted A B w).filter (fun e => decide (e.hybrid_score = s))
    ∧ (fusedUnsorted A B w).map FusedResult.doc_id = firstDedup (docIds A ++ docIds B)
    ∧ hybrid_fusion A B w = hybrid_fusion A B w :=
  ⟨sortDesc_sorted _, sortDesc_filter _ s, fusion_pre_ids A B w, rfl⟩

/-- C9, counterexample: for `A = [a@1, b@2, a@3]` (which contains a
duplicate), `fuse(A, [], 1)` orders the identifiers `[b, a]` — `a` is
scored at its last rank 3 and drops below `b` — which is neither `A`'s raw
identifier sequence nor its first-occurrence order. -/
theorem hybrid_fusion_boundary_refuted :
    (hybrid_fusion [⟨"a", "s1"⟩, ⟨"b", "s2"⟩, ⟨"a", "s3"⟩] [] 1).map FusedResult.doc_id
        = ["b", "a"]
    ∧ docIds [⟨"a", "s1"⟩, ⟨"b", "s2"⟩, ⟨"a", "s3"⟩] = ["a", "b", "a"]
    ∧ firstDedup (docIds [⟨"a", "s1"⟩, ⟨"b", "s2"⟩, ⟨"a", "s3"⟩]) = ["a", "b"]
    ∧ (["b", "a"] ≠ (["a", "b", "a"] : List String))
    ∧ (["b", "a"] ≠ (["a", "b"] : List String)) := by
  refine ⟨?_, by decide, by decide, by decide, by decide⟩
  norm_num [hybrid_fusion, fusedUnsorted, bm25Phase, vectorPhase, updateBm25,
    updateVector, fuseEntry, sortDesc, insertDesc, rrfScore]

/-- C9, amended: `fuse([], [], w)` is empty for every weight, and for every
DUPLICATE-FREE list `A`, `fuse(A, [], 1)` preserves `A`'s own rank order
(the second list contributes zero to every score). -/
theorem hybrid_fusion_boundary_amended (w : ℚ) (A : List SearchResult)
    (hA : (docIds A).Nodup) :
    hybrid_fusion [] [] w = []
    ∧ (hybrid_fusion A [] 1).map FusedResult.doc_id = docIds A := by
  constructor
  · rfl
  · rw [hybrid_fusion, fusedUnsorted]
    have hvec : vectorPhase [] (bm25Phase A [] 1) 1 = bm25Phase A [] 1 := rfl
    rw [hvec, bm25Phase_enum A [] 1 hA (fun id _ => by simp [keysOf])]
    have hnil : (([] : List (String × DocEntry)) ++ enumRanks A 1) = enumRanks A 1 := by
      simp
    rw [hnil, sortDesc_of_sorted (enumRanks_fused_sorted A 1).1, map_docId_fuseEntry,
      keysOf_enumRanks]

/-- Witness for C9's amended theorem at `w = 7`, `A = [a@1, b@2]`. -/
theorem hybrid_fusion_boundary_amended_witness :
    hybrid_fusion [] [] 7 = []
    ∧ (hybrid_fusion [⟨"a", "x"⟩, ⟨"b", "y"⟩] [] 1).map FusedResult.doc_id
        = docIds [⟨"a", "x"⟩, ⟨"b", "y"⟩] :=
  hybrid_fusion_boundary_amended 7 [⟨"a", "x"⟩, ⟨"b", "y"⟩] (by decide)

/-! ## Claim theorems: workflow orchestration -/

/-- C1, counterexample: in a run where stage 1 completes with a classified
failure, the workflow returns the FAILED dict directly and the persistence
activity is NOT invoked (the trace contains no save call) — refuting the
claim that the FAILED terminal outcome is routed to ResultSink like the
COMPLETED one. -/
theorem workflow_failed_outcome_persisted_refuted :
    (researchWorkflowRun envStage1Fails sampleRequest).1
        = Except.ok (failResult "Query+Filter Agent" ["boom"])
    ∧ ((researchWorkflowRun envStage1Fails sampleRequest).2.filter
        ActivityCall.isSave) = []
    ∧ (failResult "Query+Filter Agent" ["boom"]).status
        = ResearchStatus.failed.value := by
  refine ⟨rfl, rfl, rfl⟩

/-- C1, amended: a stage's classified failure (non-empty errors) makes the
workflow skip all remaining stages and return the FAILED dict directly to
its caller WITHOUT invoking the persistence activity; the persistence
activity runs only on the COMPLETED path (whenever the returned result has
FAILED status, the trace contains no save call). -/
theorem workflow_failed_not_persisted (env : WorkflowEnv) (req : WorkflowRequest)
    (a1 a2 a3 : ActivityDict) (r : WorkflowResult) :
    ((executeWithRetry workflowRetryPolicy (env.agent1 req)).result = Except.ok a1 →
      a1.errors ≠ [] →
      researchWorkflowRun env req
        = (Except.ok (failResult "Query+Filter Agent" a1.errors),
           [ActivityCall.queryFilter req]))
    ∧ ((executeWithRetry workflowRetryPolicy (env.agent1 req)).result = Except.ok a1 →
      a1.errors = [] →
      (executeWithRetry workflowRetryPolicy
          (env.agent2 (mkAgent2Input req a1))).result = Except.ok a2 →
      a2.errors ≠ [] →
      researchWorkflowRun env req
        = (Except.ok (failResult "Retriever+Summarizer Agent" a2.errors),
           [ActivityCall.queryFilter req,
            ActivityCall.retrieverSummarizer (mkAgent2Input req a1)]))
    ∧ ((executeWithRetry workflowRetryPolicy (env.agent1 req)).result = Except.ok a1 →
      a1.errors = [] →
      (executeWithRetry workflowRetryPolicy
          (env.agent2 (mkAgent2Input req a1))).result = Except.ok a2 →
      a2.errors = [] →
      (executeWithRetry workflowRetryPolicy
          (env.agent3 (mkAgent3Input req a2))).result = Except.ok a3 →
      a3.errors ≠ [] →
      researchWorkflowRun env req
        = (Except.ok (failResult "Fact-Check+Writer Agent" a3.errors),
           [ActivityCall.queryFilter req,
            ActivityCall.retrieverSummarizer (mkAgent2Input req a1),
            ActivityCall.factCheckWriter (mkAgent3Input req a2)]))
    ∧ ((researchWorkflowRun env req).1 = Except.ok r →
        r.status = ResearchStatus.failed.value →
        ((researchWorkflowRun env req).2.filter ActivityCall.isSave) = []) := by
  refine ⟨?_, ?_, ?_, ?_⟩
  · intro h1 h1e
    simp only [researchWorkflowRun, researchWorkflowRunWith, h1, h1e]
    simp [h1e]
  · intro h1 h1e h2 h2e
    simp only [researchWorkflowRun, researchWorkflowRunWith, h1, h1e, h2]
    simp [h2e]
  · intro h1 h1e h2 h2e h3 h3e
    simp only [researchWorkflowRun, researchWorkflowRunWith, h1, h1e, h2, h2e, h3]
    simp [h3e]
  · intro hok hst
    simp only [researchWorkflowRun, researchWorkflowRunWith] at hok ⊢
    revert hok
    cases hE1 : (executeWithRetry workflowRetryPolicy (env.agent1 req)).result with
    | error d =>
      intro hok
      simp at hok
    | ok a1 =>
      intro hok
      by_cases h1e : a1.errors = []
      · simp only [if_pos h1e] at hok ⊢
        revert hok
        cases hE2 : (executeWithRetry workflowRetryPolicy
            (env.agent2 (mkAgent2Input req a1))).result with
        | error d =>
          intro hok
          simp at hok
        | ok a2 =>
          intro hok
          by_cases h2e : a2.errors = []
          · simp only [if_pos h2e] at hok ⊢
            revert hok
            cases hE3 : (executeWithRetry workflowRetryPolicy
                (env.agent3 (mkAgent3Input req a2))).result with
            | error d =>
              intro hok
              simp at hok
            | ok a3 =>
              intro hok
              by_cases h3e : a3.errors = []
              · simp only [if_pos h3e] at hok ⊢
                revert hok
                cases hE4 : (executeWithRetry workflowRetryPolicy
                    (env.save ⟨req.request_id, completedResult a1 a2 a3⟩)).result with
                | error d =>
                  intro hok
                  simp at hok
                | ok ack =>
                  intro hok
                  simp only [Except.ok.injEq] at hok
                  rw [← hok] at hst
                  have hcs : (completedResult a1 a2 a3).status = "completed" := rfl
                  have hfv : ResearchStatus.failed.value = "failed" := rfl
                  rw [hcs, hfv] at hst
                  exact absurd hst (by decide)
              · simp only [if_neg h3e] at hok ⊢
                simp [ActivityCall.isSave]
          · simp only [if_neg h2e] at hok ⊢
            simp [ActivityCall.isSave]
      · simp only [if_neg h1e] at hok ⊢
        simp [ActivityCall.isSave]

/-- Witness for C1's amended theorem: the stage-1-fails scenario. -/
theorem workflow_failed_not_persisted_witness :
    researchWorkflowRun envStage1Fails sampleRequest
      = (Except.ok (failResult "Query+Filter Agent" ["boom"]),
         [ActivityCall.queryFilter sampleRequest]) :=
  (workflow_failed_not_persisted envStage1Fails sampleRequest errorActivityDict
    emptyActivityDict emptyActivityDict
    (failResult "Query+Filter Agent" ["boom"])).1 rfl (by decide)

/-- C6: when stage 1 succeeds cleanly and stage 2 completes with a
non-empty errors list, the workflow returns the FAILED dict whose error
message names the Retriever+Summarizer agent and carries its error detail;
the stage-3 activity and the persistence activity are never invoked. -/
theorem workflow_stage2_short_circuit (env : WorkflowEnv) (req : WorkflowRequest)
    (a1 a2 : ActivityDict)
    (h1 : (executeWithRetry workflowRetryPolicy (env.agent1 req)).result = Except.ok a1)
    (h1e : a1.errors = [])
    (h2 : (executeWithRetry workflowRetryPolicy
        (env.agent2 (mkAgent2Input req a1))).result = Except.ok a2)
    (h2e : a2.errors ≠ []) :
    researchWorkflowRun env req
      = (Except.ok (failResult "Retriever+Summarizer Agent" a2.errors),
         [ActivityCall.queryFilter req,
          ActivityCall.retrieverSummarizer (mkAgent2Input req a1)])
    ∧ ((researchWorkflowRun env req).2.filter ActivityCall.isFactCheck) = []
    ∧ ((researchWorkflowRun env req).2.filter ActivityCall.isSave) = []
    ∧ (failResult "Retriever+Summarizer Agent" a2.errors).status
        = ResearchStatus.failed.value
    ∧ (failResult "Retriever+Summarizer Agent" a2.errors).error
        = some ("Retriever+Summarizer Agent failed: " ++ pyListRepr a2.errors) := by
  have hrun : researchWorkflowRun env req
      = (Except.ok (failResult "Retriever+Summarizer Agent" a2.errors),
         [ActivityCall.queryFilter req,
          ActivityCall.retrieverSummarizer (mkAgent2Input req a1)]) := by
    simp only [researchWorkflowRun, researchWorkflowRunWith, h1, h1e, h2]
    simp [h2e]
  refine ⟨hrun, ?_, ?_, rfl, rfl⟩
  · rw [hrun]
    simp [ActivityCall.isFactCheck]
  · rw [hrun]
    simp [ActivityCall.isSave]

/-- Witness for C6: the stage-2-fails scenario. -/
theorem workflow_stage2_short_circuit_witness :
    researchWorkflowRun envStage2Fails sampleRequest
      = (Except.ok (failResult "Retriever+Summarizer Agent" ["boom"]),
         [ActivityCall.queryFilter sampleRequest,
          ActivityCall.retrieverSummarizer
            (mkAgent2Input sampleRequest emptyActivityDict)]) :=
  (workflow_stage2_short_circuit envStage2Fails sampleRequest emptyActivityDict
    errorActivityDict rfl rfl rfl (by decide)).1

/-- C7: every activity invocation in the workflow goes through the one
retry policy with initial interval 1, cap 10 and at most 3 total attempts;
under the (spec-modelled) executor, a completed attempt — even one whose
returned dict carries a non-empty errors list, i.e. a SEMANTIC failure —
is final immediately with no retry; only transient attempts are retried,
at most 3 attempts happen, and the backoff delays are the capped
exponentials. -/
theorem workflow_retry_policy_semantics (f : ℕ → AttemptOutcome ActivityDict)
    (out : ActivityDict) (k : ℕ) :
    workflowRetryPolicy = ⟨1, 10, 3⟩
    ∧ researchWorkflowRun = researchWorkflowRunWith workflowRetryPolicy
    ∧ (f 0 = AttemptOutcome.completed out →
        executeWithRetry workflowRetryPolicy f = ⟨Except.ok out, 1, []⟩)
    ∧ (executeWithRetry workflowRetryPolicy f).attemptsUsed ≤ 3
    ∧ ((k + 1) < (executeWithRetry workflowRetryPolicy f).attemptsUsed →
        (f k).isCompleted = false)
    ∧ (executeWithRetry workflowRetryPolicy f).delays
        = (List.range ((executeWithRetry workflowRetryPolicy f).attemptsUsed - 1)).map
            (retryDelay workflowRetryPolicy)
    ∧ retryDelay workflowRetryPolicy 0 = 1
    ∧ retryDelay workflowRetryPolicy k ≤ 10 := by
  refine ⟨rfl, rfl, ?_, ?_, ?_, ?_, rfl, ?_⟩
  · intro h0
    simp [executeWithRetry, workflowRetryPolicy, execFrom, h0]
  · cases h0 : f 0 with
    | completed o => simp [executeWithRetry, workflowRetryPolicy, execFrom, h0]
    | transient d0 =>
      cases h1 : f 1 with
      | completed o => simp [executeWithRetry, workflowRetryPolicy, execFrom, h0, h1]
      | transient d1 =>
        cases h2 : f 2 with
        | completed o => simp [executeWithRetry, workflowRetryPolicy, execFrom, h0, h1, h2]
        | transient d2 => simp [executeWithRetry, workflowRetryPolicy, execFrom, h0, h1, h2]
  · intro hk
    cases h0 : f 0 with
    | completed o =>
      simp [executeWithRetry, workflowRetryPolicy, execFrom, h0] at hk
    | transient d0 =>
      cases h1 : f 1 with
      | completed o =>
        simp [executeWithRetry, workflowRetryPolicy, execFrom, h0, h1] at hk
        have hk0 : k = 0 := by omega
        subst hk0
        simp [h0, AttemptOutcome.isCompleted]
      | transient d1 =>
        cases h2 : f 2 with
        | completed o =>
          simp [executeWithRetry, workflowRetryPolicy, execFrom, h0, h1, h2] at hk
          have hk01 : k = 0 ∨ k = 1 := by omega
          rcases hk01 with rfl | rfl
          · simp [h0, AttemptOutcome.isCompleted]
          · simp [h1, AttemptOutcome.isCompleted]
        | transient d2 =>
          simp [executeWithRetry, workflowRetryPolicy, execFrom, h0, h1, h2] at hk
          have hk01 : k = 0 ∨ k = 1 := by omega
          rcases hk01 with rfl | rfl
          · simp [h0, AttemptOutcome.isCompleted]
          · simp [h1, AttemptOutcome.isCompleted]
  · cases h0 : f 0 with
    | completed o => simp [executeWithRetry, workflowRetryPolicy, execFrom, h0]
    | transient d0 =>
      cases h1 : f 1 with
      | completed o =>
        simp [executeWithRetry, workflowRetryPolicy, execFrom, h0, h1, List.range_succ]
      | transient d1 =>
        cases h2 : f 2 with
        | completed o =>
          simp [executeWithRetry, workflowRetryPolicy, execFrom, h0, h1, h2,
            List.range_succ]
        | transient d2 =>
          simp [executeWithRetry, workflowRetryPolicy, execFrom, h0, h1, h2,
            List.range_succ]
  · show min (1 * 2 ^ k) 10 ≤ 10
    exact min_le_right _ _

/-- Witness for C7: a first-attempt completion is returned immediately. -/
theorem workflow_retry_policy_semantics_witness :
    executeWithRetry workflowRetryPolicy
        (fun _ => AttemptOutcome.completed emptyActivityDict)
      = ⟨Except.ok emptyActivityDict, 1, []⟩
    ∧ retryDelay workflowRetryPolicy 0 = 1 :=
  ⟨(workflow_retry_policy_semantics (fun _ => AttemptOutcome.completed emptyActivityDict)
      emptyActivityDict 0).2.2.1 rfl,
   (workflow_retry_policy_semantics (fun _ => AttemptOutcome.completed emptyActivityDict)
      emptyActivityDict 0).2.2.2.2.2.2.1⟩

/-! ## Persistence lemmas and claim -/

theorem applySave_id (rec : DBRecord) (data : SaveData) (now : ℕ) :
    (applySave rec data now).id = rec.id := rfl

theorem applySave_applySave_same (rec : DBRecord) (data : SaveData) (now : ℕ) :
    applySave (applySave rec data now) data now = applySave rec data now := by
  cases hc : rec.created_at <;> simp [applySave, hc]

theorem updateFirstById_length (db : List DBRecord) (rid : Option String)
    (data : SaveData) (now : ℕ) :
    (updateFirstById db rid data now).length = db.length := by
  induction db with
  | nil => rfl
  | cons rec rest ih =>
    simp only [updateFirstById]
    by_cases h : some rec.id = rid
    · rw [if_pos h]
      simp
    · rw [if_neg h]
      simp [ih]

theorem countById_cons (rec : DBRecord) (rest : List DBRecord) (k : String) :
    countById (rec :: rest) k = (if rec.id = k then 1 else 0) + countById rest k := by
  by_cases h : rec.id = k <;> simp [countById, List.filter_cons, h, Nat.add_comm]

theorem updateFirstById_count (db : List DBRecord) (rid : Option String)
    (data : SaveData) (now : ℕ) (k : String) :
    countById (updateFirstById db rid data now) k = countById db k := by
  induction db with
  | nil => rfl
  | cons rec rest ih =>
    simp only [updateFirstById]
    by_cases h : some rec.id = rid
    · rw [if_pos h, countById_cons, countById_cons, applySave_id]
    · rw [if_neg h, countById_cons, countById_cons, ih]

theorem findById_updateFirstById {db : List DBRecord} {rid : String} {rec : DBRecord}
    (hfind : findById db rid = some rec) (data : SaveData) (now : ℕ) :
    findById (updateFirstById db (some rid) data now) rid
      = some (applySave rec data now) := by
  induction db with
  | nil => simp [findById] at hfind
  | cons r rest ih =>
    simp only [findById, updateFirstById] at hfind ⊢
    by_cases h : r.id = rid
    · rw [if_pos h] at hfind
      have hr : r = rec := by
        simpa using hfind
      subst hr
      rw [if_pos (by rw [h])]
      simp only [findById]
      rw [if_pos (by rw [applySave_id, h])]
    · rw [if_neg h] at hfind
      rw [if_neg (fun hc => h (Option.some.inj hc))]
      simp only [findById]
      rw [if_neg h]
      exact ih hfind

theorem updateFirstById_idem (db : List DBRecord) (rid : Option String)
    (data : SaveData) (now : ℕ) :
    updateFirstById (updateFirstById db rid data now) rid data now
      = updateFirstById db rid data now := by
  induction db with
  | nil => rfl
  | cons rec rest ih =>
    simp only [updateFirstById]
    by_cases h : some rec.id = rid
    · rw [if_pos h]
      have hid : some (applySave rec data now).id = rid := by
        rw [applySave_id]
        exact h
      simp only [updateFirstById, if_pos hid]
      rw [applySave_applySave_same]
    · rw [if_neg h]
      simp only [updateFirstById, if_neg h]
      rw [ih]

/-- C8, counterexample: persistence is NOT an upsert — with no existing row
for the request id, persisting twice stores nothing, so "after the second
call exactly one durable record exists for that requestId" fails on the
empty table. -/
theorem result_sink_upsert_refuted :
    countById (save_research_result_activity
      (save_research_result_activity [] (some "req-1") ⟨none, none⟩ 0).1
      (some "req-1") ⟨none, none⟩ 0).1 "req-1" = 0
    ∧ (0 : ℕ) ≠ 1 := by
  constructor
  · rfl
  · decide

/-- C8, amended: the persistence activity updates the FIRST existing row
with the request id in place (update-by-requestId, not upsert): it never
creates or duplicates rows (row count by id and table length are
preserved), a repeated identical persist is a no-op on the table, and the
stored row always matches the latest call's content; given exactly one
pre-existing row, exactly one row remains after persisting twice. -/
theorem result_sink_update_idempotent (db : List DBRecord) (rid : String)
    (data data2 : SaveData) (now now2 : ℕ) (rec : DBRecord)
    (hfind : findById db rid = some rec) (hcount : countById db rid = 1) :
    countById (save_research_result_activity db (some rid) data now).1 rid
        = countById db rid
    ∧ countById (save_research_result_activity
        (save_research_result_activity db (some rid) data now).1
        (some rid) data2 now2).1 rid = 1
    ∧ (save_research_result_activity db (some rid) data now).1.length = db.length
    ∧ (save_research_result_activity
         (save_research_result_activity db (some rid) data now).1 (some rid) data now).1
        = (save_research_result_activity db (some rid) data now).1
    ∧ findById (save_research_result_activity
         (save_research_result_activity db (some rid) data now).1
         (some rid) data2 now2).1 rid
        = some (applySave (applySave rec data now) data2 now2)
    ∧ (applySave (applySave rec data now) data2 now2).status
        = data2.status.getD ResearchStatus.completed.value
    ∧ (applySave (applySave rec data now) data2 now2).brief_data = data2.brief
    ∧ (applySave (applySave rec data now) data2 now2).completed_at = some now2
    ∧ (save_research_result_activity db (some rid) data now).2 = true := by
  simp only [save_research_result_activity]
  refine ⟨updateFirstById_count db (some rid) data now rid, ?_,
    updateFirstById_length db (some rid) data now, updateFirstById_idem db (some rid) data now,
    ?_, rfl, rfl, rfl, trivial⟩
  · rw [updateFirstById_count, updateFirstById_count]
    exact hcount
  · exact findById_updateFirstById (findById_updateFirstById hfind data now) data2 now2

/-- Witness for C8's amended theorem on a one-row table. -/
theorem result_sink_update_idempotent_witness :
    countById (save_research_result_activity
        (save_research_result_activity
          [⟨"req-1", "processing", some 100, none, none, none⟩]
          (some "req-1") ⟨some "completed", some "B"⟩ 200).1
        (some "req-1") ⟨some "completed", some "B"⟩ 300).1 "req-1" = 1
    ∧ findById (save_research_result_activity
        (save_research_result_activity
          [⟨"req-1", "processing", some 100, none, none, none⟩]
          (some "req-1") ⟨some "completed", some "B"⟩ 200).1
        (some "req-1") ⟨some "completed", some "B"⟩ 300).1 "req-1"
      = some (applySave (applySave ⟨"req-1", "processing", some 100, none, none, none⟩
          ⟨some "completed", some "B"⟩ 200) ⟨some "completed", some "B"⟩ 300) := by
  have h := result_sink_update_idempotent
    [⟨"req-1", "processing", some 100, none, none, none⟩] "req-1"
    ⟨some "completed", some "B"⟩ ⟨some "completed", some "B"⟩ 200 300
    ⟨"req-1", "processing", some 100, none, none, none⟩ rfl rfl
  exact ⟨h.2.1, h.2.2.2.2.1⟩

/-! ## Claim theorem: the agents' error capture -/

/-- C10: every agent's `run` returns an `AgentOutput` in all cases (it is a
total function of the step outcomes — the except-branch turns any raising
step into a normal return); `errors` is non-empty exactly when some step
raised, in which case `errors` is exactly the raising step's message and
`output_data` is the `{"error": message}` dict; when no step raises,
`errors` is empty and `output_data` is the success dict. -/
theorem agents_capture_step_errors
    (qenv : QueryFilterEnv) (renv : RetrieverSummarizerEnv) (fenv : FactCheckWriterEnv)
    (t : String) (ms : ℕ) (qt : ℚ) (gray : Bool) (dr : Option (String × String))
    (mock : Option (List String)) (v : String) (vs : List String)
    (m : String) (exp : Expansion) (vet : List String)
    (t2 : String) (qs : List String) (k rk : ℕ) (s2 : String)
    (t3 : String) (docs : List FusedResult) (sd : String) (bd : BriefData)
    (rf tr : List String) :
    ((QueryFilterAgent.run qenv t ms qt gray dr mock).errors ≠ [] ↔
      (match mock with
       | some (r :: rs) =>
         exceptFailed (qenv.expand_query t dr gray) = true
         ∨ (exceptFailed (qenv.expand_query t dr gray) = false
            ∧ exceptFailed (qenv.vet_results t (r :: rs) qt) = true)
       | _ => exceptFailed (qenv.expand_query t dr gray) = true))
    ∧ (qenv.expand_query t dr gray = Except.error m →
        (QueryFilterAgent.run qenv t ms qt gray dr mock).errors = [m]
        ∧ (QueryFilterAgent.run qenv t ms qt gray dr mock).output_data = QFData.err m)
    ∧ (qenv.expand_query t dr gray = Except.ok exp →
        qenv.vet_results t (v :: vs) qt = Except.error m →
        (QueryFilterAgent.run qenv t ms qt gray dr (some (v :: vs))).errors = [m]
        ∧ (QueryFilterAgent.run qenv t ms qt gray dr (some (v :: vs))).output_data
            = QFData.err m)
    ∧ (qenv.expand_query t dr gray = Except.ok exp →
        (QueryFilterAgent.run qenv t ms qt gray dr none).errors = []
        ∧ (QueryFilterAgent.run qenv t ms qt gray dr none).output_data
            = QFData.ok exp [] t)
    ∧ (qenv.expand_query t dr gray = Except.ok exp →
        qenv.vet_results t (v :: vs) qt = Except.ok vet →
        (QueryFilterAgent.run qenv t ms qt gray dr (some (v :: vs))).errors = []
        ∧ (QueryFilterAgent.run qenv t ms qt gray dr (some (v :: vs))).output_data
            = QFData.ok exp (vet.take ms) t)
    ∧ ((RetrieverSummarizerAgent.run renv t2 qs k rk).errors ≠ [] ↔
        exceptFailed (renv.hierarchical_summarize t2
          (rerank (hybrid_fusion (renv.bm25_search qs k) (renv.vector_search qs k) (1/2))
            rk)) = true)
    ∧ (renv.hierarchical_summarize t2
          (rerank (hybrid_fusion (renv.bm25_search qs k) (renv.vector_search qs k) (1/2)) rk)
        = Except.error m →
        (RetrieverSummarizerAgent.run renv t2 qs k rk).errors = [m]
        ∧ (RetrieverSummarizerAgent.run renv t2 qs k rk).output_data = RSData.err m)
    ∧ (renv.hierarchical_summarize t2
          (rerank (hybrid_fusion (renv.bm25_search qs k) (renv.vector_search qs k) (1/2)) rk)
        = Except.ok s2 →
        (RetrieverSummarizerAgent.run renv t2 qs k rk).errors = []
        ∧ (RetrieverSummarizerAgent.run renv t2 qs k rk).output_data
            = RSData.ok (rerank (hybrid_fusion (renv.bm25_search qs k)
                (renv.vector_search qs k) (1/2)) rk) s2 t2)
    ∧ ((FactCheckWriterAgent.run fenv t3 docs sd).errors ≠ [] ↔
        (match fenv.write_brief t3 sd with
         | Except.error _ => True
         | Except.ok bd2 =>
           exceptFailed (fenv.assess_risks t3 docs sd) = true
           ∨ (exceptFailed (fenv.assess_risks t3 docs sd) = false
              ∧ exceptFailed (fenv.build_traceability bd2.claims docs) = true)))
    ∧ (fenv.write_brief t3 sd = Except.error m →
        (FactCheckWriterAgent.run fenv t3 docs sd).errors = [m]
        ∧ (FactCheckWriterAgent.run fenv t3 docs sd).output_data = FCWData.err m)
    ∧ (fenv.write_brief t3 sd = Except.ok bd →
        fenv.assess_risks t3 docs sd = Except.error m →
        (FactCheckWriterAgent.run fenv t3 docs sd).errors = [m]
        ∧ (FactCheckWriterAgent.run fenv t3 docs sd).output_data = FCWData.err m)
    ∧ (fenv.write_brief t3 sd = Except.ok bd →
        fenv.assess_risks t3 docs sd = Except.ok rf →
        fenv.build_traceability bd.claims docs = Except.error m →
        (FactCheckWriterAgent.run fenv t3 docs sd).errors = [m]
        ∧ (FactCheckWriterAgent.run fenv t3 docs sd).output_data = FCWData.err m)
    ∧ (fenv.write_brief t3 sd = Except.ok bd →
        fenv.assess_risks t3 docs sd = Except.ok rf →
        fenv.build_traceability bd.claims docs = Except.ok tr →
        (FactCheckWriterAgent.run fenv t3 docs sd).errors = []
        ∧ (FactCheckWriterAgent.run fenv t3 docs sd).output_data
            = FCWData.ok ⟨bd.brief_text, bd.word_count.getD (pyWordCount bd.brief_text),
                docs.map mkSourceMeta, fenv.extract_citations bd.brief_text docs,
                rf, tr⟩ t3) := by
  refine ⟨?_, ?_, ?_, ?_, ?_, ?_, ?_, ?_, ?_, ?_, ?_, ?_, ?_⟩
  · cases hexp : qenv.expand_query t dr gray with
    | error m' =>
      rcases mock with _ | ⟨_ | ⟨v', vs'⟩⟩ <;>
        simp [QueryFilterAgent.run, qfBody, exceptFailed, hexp]
    | ok exp' =>
      rcases mock with _ | ⟨_ | ⟨v', vs'⟩⟩
      · simp [QueryFilterAgent.run, qfBody, exceptFailed, hexp]
      · simp [QueryFilterAgent.run, qfBody, exceptFailed, hexp]
      · cases hvet : qenv.vet_results t (v' :: vs') qt with
        | error m' =>
          simp [QueryFilterAgent.run, qfBody, exceptFailed, hexp, hvet]
        | ok vet' =>
          simp [QueryFilterAgent.run, qfBody, exceptFailed, hexp, hvet]
  · intro hexp
    rcases mock with _ | ⟨_ | ⟨v', vs'⟩⟩ <;>
      simp [QueryFilterAgent.run, qfBody, hexp]
  · intro hexp hvet
    simp [QueryFilterAgent.run, qfBody, hexp, hvet]
  · intro hexp
    simp [QueryFilterAgent.run, qfBody, hexp]
  · intro hexp hvet
    simp [QueryFilterAgent.run, qfBody, hexp, hvet]
  · cases hsum : renv.hierarchical_summarize t2
        (rerank (hybrid_fusion (renv.bm25_search qs k) (renv.vector_search qs k) (1/2)) rk) with
    | error m' => simp [RetrieverSummarizerAgent.run, exceptFailed, hsum, -one_div]
    | ok s' => simp [RetrieverSummarizerAgent.run, exceptFailed, hsum, -one_div]
  · intro hsum
    simp [RetrieverSummarizerAgent.run, hsum, -one_div]
  · intro hsum
    simp [RetrieverSummarizerAgent.run, hsum, -one_div]
  · cases hwb : fenv.write_brief t3 sd with
    | error m' => simp [FactCheckWriterAgent.run, exceptFailed, hwb]
    | ok bd' =>
      cases hrisk : fenv.assess_risks t3 docs sd with
      | error m' => simp [FactCheckWriterAgent.run, exceptFailed, hwb, hrisk]
      | ok rf' =>
        cases htr : fenv.build_traceability bd'.claims docs with
        | error m' => simp [FactCheckWriterAgent.run, exceptFailed, hwb, hrisk, htr]
        | ok tr' => simp [FactCheckWriterAgent.run, exceptFailed, hwb, hrisk, htr]
  · intro hwb
    simp [FactCheckWriterAgent.run, hwb]
  · intro hwb hrisk
    simp [FactCheckWriterAgent.run, hwb, hrisk]
  · intro hwb hrisk htr
    simp [FactCheckWriterAgent.run, hwb, hrisk, htr]
  · intro hwb hrisk htr
    simp [FactCheckWriterAgent.run, hwb, hrisk, htr]

/-- Witness for C10: with collaborators whose first LLM step raises, each
agent returns the exception's message in `errors` and as the error
output. -/
theorem agents_capture_step_errors_witness :
    (QueryFilterAgent.run qfEnvRaises "t" 5 1 false none none).errors = ["llm down"]
    ∧ (QueryFilterAgent.run qfEnvRaises "t" 5 1 false none none).output_data
        = QFData.err "llm down"
    ∧ (RetrieverSummarizerAgent.run rsEnvRaises "t" [] 5 3).errors = ["llm down"]
    ∧ (FactCheckWriterAgent.run fcwEnvRaises "t" [] "s").errors = ["llm down"] := by
  have h := agents_capture_step_errors qfEnvRaises rsEnvRaises fcwEnvRaises
    "t" 5 1 false none none "v" [] "llm down" ⟨[], []⟩ [] "t" [] 5 3 "s"
    "t" [] "s" ⟨"", none, []⟩ [] []
  exact ⟨(h.2.1 rfl).1, (h.2.1 rfl).2, (h.2.2.2.2.2.2.1 rfl).1,
    (h.2.2.2.2.2.2.2.2.2.1 rfl).1⟩

end ClinicalResearch
